import Mathlib

/-!
Formal model of the alert evaluation and dedup engine of the waves-alert-bot
repository, together with proofs settling the frozen claims C1 to C10.

Modelling conventions
* JavaScript numbers are modelled as exact rationals; millisecond timestamps
  as integers.  A forecast `date` string is represented by the integer result
  of parsing it (`new Date(s).getTime()`), `none` standing for an unparseable
  string (`NaN`); every consumer in the source either filters `NaN` dates
  before use or only receives already-filtered values.
* A tide event carries `atMs`, the result of parsing its civil date and hour
  (`parseUtcDateTime(e.date, e.hora)` in the source; the helper itself lives
  in a file missing from the source snapshot, so the parse result is taken as
  the representation), `none` standing for a failed parse.
* Collaborator functions (`fetchForecasts`, `isWithinAlertWindow`,
  `getTideEventsForDate`, `sendMessage`) are pure functions returning
  `Except String`; a `.error` result models a thrown/rejected promise, and
  state mutated before the throw persists, as in JavaScript.
* The JavaScript `Map` objects (per-run forecast cache, last-sent-window
  store) are modelled as association lists with first-match lookup and
  replacing insertion.
-/

namespace WavesBot

/-- One numeric interval of an alert rule (source `core/types.ts`, `Range`). -/
structure NumRange where
  min : ℚ
  max : ℚ
  deriving DecidableEq

/-- Wind of a forecast sample (source `core/types.ts`, `SurfForecast.wind`). -/
structure WindInfo where
  speed : ℚ
  angle : ℚ
  deriving DecidableEq

/-- One swell component (source `core/types.ts`, `SurfForecast.validSwells`). -/
structure Swell where
  period : ℚ
  angle : ℚ
  height : ℚ
  deriving DecidableEq

/-- A forecast sample (source `core/types.ts`, `SurfForecast`).  The `date`
field holds the parsed timestamp in milliseconds, `none` for `NaN`. -/
structure SurfForecast where
  date : Option ℤ
  spot : String
  validSwells : List Swell
  wind : WindInfo
  energy : ℚ
  deriving DecidableEq

/-- Tide preference / tide phase values (source union type
`low | mid | high | any`). -/
inductive TidePref where
  | low
  | mid
  | high
  | any
  deriving DecidableEq

/-- An alert rule (source `core/types.ts`, `AlertRule`; restricted to the
fields the evaluation engine reads).  Optional fields are `Option`,
mirroring missing JSON properties. -/
structure AlertRule where
  id : String
  chatId : ℤ
  name : String
  spot : String
  spotId : Option String
  waveMin : ℚ
  waveMax : ℚ
  energyMin : ℚ
  energyMax : ℚ
  periodMin : ℚ
  periodMax : ℚ
  waveRanges : Option (List NumRange)
  periodRanges : Option (List NumRange)
  windRanges : Option (List NumRange)
  tidePortId : Option String
  tidePreference : Option TidePref
  enabled : Option Bool
  deriving DecidableEq

/-- A tide event (source `core/alert-engine.ts`, `TideEvent`); `atMs` is the
parse result of its civil date and hour, see the module docstring. -/
structure TideEvent where
  atMs : Option ℤ
  altura : ℚ
  tipo : String
  deriving DecidableEq

/-- A candidate match (source `core/alert-engine.ts`, `CandidateMatch`). -/
structure CandidateMatch where
  forecast : SurfForecast
  tideClass : Option TidePref
  tideHeight : Option ℚ
  deriving DecidableEq

/-- A notified window in milliseconds (source `core/check-runner.ts`,
`AlertWindow`). -/
structure AlertWindow where
  startMs : ℤ
  endMs : ℤ
  deriving DecidableEq

/-- Milliseconds in one hour. -/
def oneHourMs : ℤ := 60 * 60 * 1000

/-- Reads the parsed timestamp of a forecast, as `new Date(f.date).getTime()`
does in the source.  All call sites in the engine guard against `NaN` dates
before reaching this, so the default value is never observable there. -/
def getTimeMs (d : Option ℤ) : ℤ := d.getD 0

/-! ## Modelled utility functions

`core/utils.ts` is missing from the source snapshot; the spec (section 3)
describes the derived quantities, so these are spec-modelled. -/

/-- Modelled from the spec: combined wave height is the root-sum-of-squares
of the swell component heights.  `Rat.sqrt` is exact on perfect squares;
no claim depends on the rounding of irrational square roots. -/
def totalWaveHeight (f : SurfForecast) : ℚ :=
  Rat.sqrt ((f.validSwells.map (fun s => s.height * s.height)).foldl (· + ·) 0)

/-- Modelled from the spec: the primary period is the period of the tallest
swell component (first one wins ties), `0` when there are no components. -/
def primaryPeriod (f : SurfForecast) : ℚ :=
  match f.validSwells with
  | [] => 0
  | s :: rest =>
    (rest.foldl (fun best c => if c.height > best.height then c else best) s).period

/-- Modelled from the spec: reduce an angle to the interval `[0, 360)`. -/
def normalizeAngle (a : ℚ) : ℚ := a - 360 * ⌊a / 360⌋

/-! ## RangeMatcher (source `core/alert-engine.ts`) -/

/-- Source `isInRange`: closed interval membership. -/
def isInRange (current min max : ℚ) : Bool :=
  decide (current ≥ min) && decide (current ≤ max)

/-- Source `isWindInRange`: closed interval membership, treating an interval
with `min > max` as a circular interval wrapping through 0 degrees. -/
def isWindInRange (current min max : ℚ) : Bool :=
  if min ≤ max then decide (current ≥ min) && decide (current ≤ max)
  else decide (current ≥ min) || decide (current ≤ max)

/-- Truthiness of `xs?.length` for an optional array in JavaScript:
`true` exactly for a present, non-empty list. -/
def hasElems (o : Option (List NumRange)) : Bool :=
  match o with
  | some (_ :: _) => true
  | _ => false

/-- Source `matches`: the overall boolean matcher (`matches` is reserved in Lean, hence the `Fn` suffix). -/
def matchesFn (alert : AlertRule) (f : SurfForecast) : Bool :=
  let wave := totalWaveHeight f
  let period := primaryPeriod f
  let energy := f.energy
  let windAngle := normalizeAngle f.wind.angle
  let inWave :=
    if hasElems alert.waveRanges then
      (alert.waveRanges.getD []).any (fun r => isInRange wave r.min r.max)
    else isInRange wave alert.waveMin alert.waveMax
  let inPeriod :=
    if hasElems alert.periodRanges then
      (alert.periodRanges.getD []).any (fun r => isInRange period r.min r.max)
    else isInRange period alert.periodMin alert.periodMax
  let inEnergy := decide (energy ≥ alert.energyMin) && decide (energy ≤ alert.energyMax)
  let inWind :=
    !(hasElems alert.windRanges) ||
      (alert.windRanges.getD []).any (fun r => isWindInRange windAngle r.min r.max)
  inWave && inPeriod && inEnergy && inWind

/-- Per-dimension match outcome (source `MatchDetail`). -/
structure MatchDetail where
  pass : Bool
  wave : Bool
  period : Bool
  energy : Bool
  wind : Bool
  deriving DecidableEq

/-- Source `matchDetail`: the per-dimension matcher, duplicating the
computation of `matches` and reporting each dimension. -/
def matchDetail (alert : AlertRule) (f : SurfForecast) : MatchDetail :=
  let wave := totalWaveHeight f
  let period := primaryPeriod f
  let energy := f.energy
  let windAngle := normalizeAngle f.wind.angle
  let inWave :=
    if hasElems alert.waveRanges then
      (alert.waveRanges.getD []).any (fun r => isInRange wave r.min r.max)
    else isInRange wave alert.waveMin alert.waveMax
  let inPeriod :=
    if hasElems alert.periodRanges then
      (alert.periodRanges.getD []).any (fun r => isInRange period r.min r.max)
    else isInRange period alert.periodMin alert.periodMax
  let inEnergy := decide (energy ≥ alert.energyMin) && decide (energy ≤ alert.energyMax)
  let inWind :=
    !(hasElems alert.windRanges) ||
      (alert.windRanges.getD []).any (fun r => isWindInRange windAngle r.min r.max)
  ⟨inWave && inPeriod && inEnergy && inWind, inWave, inPeriod, inEnergy, inWind⟩

/-! ## DedupDecisionEngine (source `core/check-runner.ts`, `shouldSendWindow`) -/

/-- Source `shouldSendWindow`: send unless the candidate window equals or is
contained in the previously sent window. -/
def shouldSendWindow (last : Option AlertWindow) (next : AlertWindow) : Bool :=
  match last with
  | none => true
  | some l =>
    if next.startMs = l.startMs ∧ next.endMs = l.endMs then false
    else if next.startMs ≥ l.startMs ∧ next.endMs ≤ l.endMs then false
    else true

/-! ## ConsecutiveWindowFinder (source `core/alert-engine.ts`,
`firstConsecutiveWindow`) -/

/-- Timestamp of a candidate match, as the source computes
`new Date(item.forecast.date).getTime()`. -/
def tsOf (c : CandidateMatch) : ℤ := getTimeMs c.forecast.date

/-- Stable ascending sort by timestamp; the faithful model of the stable
JavaScript `sort((a, b) => ta - tb)` on the numeric key. -/
def sortByTs (items : List CandidateMatch) : List CandidateMatch :=
  List.insertionSort (fun a b => tsOf a ≤ tsOf b) items

/-- The window record returned by `firstConsecutiveWindow`. -/
structure ConsecWindow where
  start : CandidateMatch
  endItem : CandidateMatch
  hours : ℕ
  items : List CandidateMatch
  deriving DecidableEq

/-- The window built from the current streak `acc ++ [cur]`; mirrors
`{ start: sorted[streakStart], end: sorted[i-1], hours: streakLen,
items: sorted.slice(streakStart, i) }` in the source. -/
def mkStreakWindow (acc : List CandidateMatch) (cur : CandidateMatch) : ConsecWindow :=
  ⟨acc.headD cur, cur, acc.length + 1, acc ++ [cur]⟩

/-- Whether a streak of the given length reaches the minimum
(`streakLen >= minHours` in the source). -/
def streakLongEnough (minHours : ℚ) (len : ℕ) : Bool :=
  decide (((len : ℕ) : ℚ) ≥ minHours)

/-- The scanning loop of `firstConsecutiveWindow`: `acc ++ [cur]` is the
current streak (`streakLen = acc.length + 1`), the list argument holds the
samples not yet visited.  A streak is extended while the next gap is exactly
one hour; on a break the streak is returned when long enough, otherwise the
scan restarts at the breaking sample. -/
def firstWindowAux (minHours : ℚ) (acc : List CandidateMatch)
    (cur : CandidateMatch) : List CandidateMatch → Option ConsecWindow
  | [] =>
    if streakLongEnough minHours (acc.length + 1) then some (mkStreakWindow acc cur)
    else none
  | n :: rest =>
    if tsOf n - tsOf cur = oneHourMs then firstWindowAux minHours (acc ++ [cur]) n rest
    else if streakLongEnough minHours (acc.length + 1) then some (mkStreakWindow acc cur)
    else firstWindowAux minHours [] n rest

/-- Source `firstConsecutiveWindow`.  Returns the first streak, in ascending
timestamp order, of samples spaced exactly one hour apart whose length
reaches `minHours`.  The final branch mirrors the source literally
(`if minHours <= 1 return the first sample`); as proved with claim C2 it is
dead code for `minHours ≥ 1`. -/
def firstConsecutiveWindow (items : List CandidateMatch) (minHours : ℚ) :
    Option ConsecWindow :=
  match sortByTs items with
  | [] => none
  | h :: t =>
    match firstWindowAux minHours [] h t with
    | some w => some w
    | none =>
      if minHours ≤ 1 then some ⟨h, h, 1, [h]⟩ else none

/-- Specification-side grouping of a sorted sample list into its maximal
runs of one-hour-spaced samples: `runsAux cur acc rest` groups
`acc ++ cur :: rest` given that `acc ++ [cur]` is an unfinished run. -/
def runsAux (cur : CandidateMatch) (acc : List CandidateMatch) :
    List CandidateMatch → List (List CandidateMatch)
  | [] => [acc ++ [cur]]
  | n :: rest =>
    if tsOf n - tsOf cur = oneHourMs then runsAux n (acc ++ [cur]) rest
    else (acc ++ [cur]) :: runsAux n [] rest

/-- Specification side: the maximal one-hour-spaced runs of a list, in
order. -/
def maximalRuns : List CandidateMatch → List (List CandidateMatch)
  | [] => []
  | h :: t => runsAux h [] t

/-- Specification side: the window built from a complete run. -/
def mkRunWindow : List CandidateMatch → Option ConsecWindow
  | [] => none
  | h :: t => some ⟨h, ((h :: t).getLast?).getD h, t.length + 1, h :: t⟩

/-- Whether a run is long enough for the requested minimum. -/
def runLongEnough (minHours : ℚ) (r : List CandidateMatch) : Bool :=
  streakLongEnough minHours r.length

theorem mkRunWindow_append (acc : List CandidateMatch) (cur : CandidateMatch) :
    mkRunWindow (acc ++ [cur]) = some (mkStreakWindow acc cur) := by
  cases acc with
  | nil => simp [mkRunWindow, mkStreakWindow]
  | cons a t =>
    have hl : (a :: (t ++ [cur])).getLast? = some cur := List.getLast?_concat (a :: t)
    simp [mkRunWindow, mkStreakWindow, hl]

theorem runLongEnough_append (minHours : ℚ) (acc : List CandidateMatch)
    (cur : CandidateMatch) :
    runLongEnough minHours (acc ++ [cur]) = streakLongEnough minHours (acc.length + 1) := by
  simp [runLongEnough]

theorem firstWindowAux_eq_find (minHours : ℚ) :
    ∀ (l : List CandidateMatch) (acc : List CandidateMatch) (cur : CandidateMatch),
      firstWindowAux minHours acc cur l =
        ((runsAux cur acc l).find? (runLongEnough minHours)).bind mkRunWindow := by
  intro l
  induction l with
  | nil =>
    intro acc cur
    rw [firstWindowAux, runsAux, List.find?]
    rw [runLongEnough_append]
    cases h : streakLongEnough minHours (acc.length + 1) with
    | true => simp [mkRunWindow_append]
    | false => simp
  | cons n rest ih =>
    intro acc cur
    rw [firstWindowAux, runsAux]
    cases hc : decide (tsOf n - tsOf cur = oneHourMs) with
    | true =>
      have hc2 := of_decide_eq_true hc
      simp only [hc2, if_true, ih]
    | false =>
      have hc2 := of_decide_eq_false hc
      simp only [hc2, if_false, List.find?, runLongEnough_append]
      cases h : streakLongEnough minHours (acc.length + 1) with
      | true => simp [mkRunWindow_append]
      | false => simp [ih]

theorem runsAux_ne_nil (l : List CandidateMatch) (acc : List CandidateMatch)
    (cur : CandidateMatch) : runsAux cur acc l ≠ [] := by
  induction l generalizing acc cur with
  | nil => simp [runsAux]
  | cons n rest ih =>
    simp only [runsAux]
    split
    · exact ih _ _
    · simp

theorem runsAux_runs_ne_nil (l : List CandidateMatch) (acc : List CandidateMatch)
    (cur : CandidateMatch) : ∀ r ∈ runsAux cur acc l, r ≠ [] := by
  induction l generalizing acc cur with
  | nil =>
    intro r hr
    simp only [runsAux, List.mem_singleton] at hr
    subst hr
    simp
  | cons n rest ih =>
    intro r hr
    simp only [runsAux] at hr
    split at hr
    · exact ih _ _ r hr
    · rcases List.mem_cons.mp hr with h | h
      · subst h; simp
      · exact ih _ _ r h

/-- Adjacency relation of a one-hour streak: the second sample is exactly one
hour after the first. -/
def oneHourApart (a b : CandidateMatch) : Prop := tsOf b - tsOf a = oneHourMs

theorem runsAux_join (l : List CandidateMatch) :
    ∀ (acc : List CandidateMatch) (cur : CandidateMatch),
      (runsAux cur acc l).flatten = acc ++ cur :: l := by
  induction l with
  | nil => intro acc cur; simp [runsAux]
  | cons n rest ih =>
    intro acc cur
    rw [runsAux]
    split
    · rw [ih] ; simp
    · simp [ih]

/-- The maximal runs concatenate back to the sorted list. -/
theorem maximalRuns_join (l : List CandidateMatch) : (maximalRuns l).flatten = l := by
  cases l with
  | nil => rfl
  | cons h t => simpa using runsAux_join t [] h

theorem runsAux_chain (l : List CandidateMatch) :
    ∀ (acc : List CandidateMatch) (cur : CandidateMatch),
      List.Chain' oneHourApart (acc ++ [cur]) →
      ∀ r ∈ runsAux cur acc l, List.Chain' oneHourApart r := by
  induction l with
  | nil =>
    intro acc cur hch r hr
    simp only [runsAux, List.mem_singleton] at hr
    subst hr; exact hch
  | cons n rest ih =>
    intro acc cur hch r hr
    rw [runsAux] at hr
    split at hr
    · refine ih (acc ++ [cur]) n ?_ r hr
      rw [List.chain'_append]
      refine ⟨hch, List.chain'_singleton n, ?_⟩
      intro x hx y hy
      simp only [List.getLast?_concat, Option.mem_def, Option.some_inj] at hx
      simp only [List.head?_cons, Option.mem_def, Option.some_inj] at hy
      subst hx; subst hy
      assumption
    · rcases List.mem_cons.mp hr with h | h
      · subst h; exact hch
      · refine ih [] n ?_ r h
        simp

/-- Every maximal run is a chain of one-hour gaps. -/
theorem maximalRuns_chain (l : List CandidateMatch) :
    ∀ r ∈ maximalRuns l, List.Chain' oneHourApart r := by
  cases l with
  | nil => simp [maximalRuns]
  | cons h t =>
    intro r hr
    exact runsAux_chain t [] h (by simp) r hr

theorem runsAux_first_shape (l : List CandidateMatch) :
    ∀ (acc : List CandidateMatch) (cur : CandidateMatch),
      ∃ p rs, runsAux cur acc l = (acc ++ cur :: p) :: rs := by
  induction l with
  | nil => intro acc cur; exact ⟨[], [], by simp [runsAux]⟩
  | cons n rest ih =>
    intro acc cur
    rw [runsAux]
    split
    · obtain ⟨p, rs, hp⟩ := ih (acc ++ [cur]) n
      exact ⟨n :: p, rs, by simp [hp]⟩
    · exact ⟨[], runsAux n [] rest, by simp⟩

theorem runsAux_boundary (l : List CandidateMatch) :
    ∀ (acc : List CandidateMatch) (cur : CandidateMatch),
      List.Chain'
        (fun r1 r2 => ∀ x ∈ r1.getLast?, ∀ y ∈ r2.head?, ¬oneHourApart x y)
        (runsAux cur acc l) := by
  induction l with
  | nil => intro acc cur; simp [runsAux]
  | cons n rest ih =>
    intro acc cur
    rw [runsAux]
    split
    · exact ih (acc ++ [cur]) n
    · rw [List.chain'_cons']
      refine ⟨?_, ih [] n⟩
      intro s hs x hx y hy
      obtain ⟨p, rs, hp⟩ := runsAux_first_shape rest [] n
      rw [hp] at hs
      simp only [List.head?_cons, Option.mem_def, Option.some_inj] at hs
      subst hs
      simp only [List.getLast?_concat, Option.mem_def, Option.some_inj] at hx
      simp only [List.nil_append, List.head?_cons, Option.mem_def, Option.some_inj] at hy
      subst hx; subst hy
      intro hcontra
      exact absurd hcontra (by assumption)

/-- C2: for every candidate list and minimum `minHours ≥ 1`,
`firstConsecutiveWindow` returns exactly the first maximal run of
one-hour-spaced samples (in ascending timestamp order of the stably sorted
input) whose length reaches `minHours`, packaged as a window whose `start`
is the first sample of the run, `endItem` the last, `hours` the run length
and `items` the run itself, and returns `none` when the list is empty or no
maximal run is long enough.  The maximal-run reading of the right-hand side
is justified by `maximalRuns_join`, `maximalRuns_chain` and
`runsAux_boundary`. -/
theorem C2_firstConsecutiveWindow_eq_firstRun (items : List CandidateMatch)
    (minHours : ℚ) (hmin : 1 ≤ minHours) :
    firstConsecutiveWindow items minHours =
      ((maximalRuns (sortByTs items)).find? (runLongEnough minHours)).bind mkRunWindow := by
  unfold firstConsecutiveWindow
  cases hs : sortByTs items with
  | nil => simp [maximalRuns]
  | cons h1 t =>
    dsimp only
    rw [firstWindowAux_eq_find]
    simp only [maximalRuns]
    cases hf : (runsAux h1 [] t).find? (runLongEnough minHours) with
    | some r =>
      have hmem : r ∈ runsAux h1 [] t := List.mem_of_find?_eq_some hf
      have hne : r ≠ [] := runsAux_runs_ne_nil t [] h1 r hmem
      cases r with
      | nil => exact absurd rfl hne
      | cons rh rt => simp [mkRunWindow]
    | none =>
      simp only [Option.none_bind]
      by_cases hm : minHours ≤ 1
      · exfalso
        have hone : minHours = 1 := le_antisymm hm hmin
        cases hr : runsAux h1 [] t with
        | nil => exact runsAux_ne_nil t [] h1 hr
        | cons r0 rs =>
          have hne : r0 ≠ [] :=
            runsAux_runs_ne_nil t [] h1 r0 (by rw [hr]; exact List.mem_cons_self r0 rs)
          have hlen : 1 ≤ r0.length := List.length_pos.mpr hne
          have hgood : runLongEnough minHours r0 = true := by
            simp only [runLongEnough, streakLongEnough, hone, ge_iff_le,
              decide_eq_true_eq]
            exact_mod_cast hlen
          rw [hr, List.find?] at hf
          rw [hgood] at hf
          exact Option.noConfusion hf
      · simp [hm]

/-- C2 witness: the theorem applied to the unordered 09:00, 10:00, 11:00
sample set of the spec with minimum 2. -/
theorem C2_witness :
    (1 : ℚ) ≤ 2 ∧
      firstConsecutiveWindow
          [⟨⟨some 36000000, "sopelana", [], ⟨0, 0⟩, 0⟩, none, none⟩,
           ⟨⟨some 32400000, "sopelana", [], ⟨0, 0⟩, 0⟩, none, none⟩,
           ⟨⟨some 39600000, "sopelana", [], ⟨0, 0⟩, 0⟩, none, none⟩] 2 =
        ((maximalRuns (sortByTs
            [⟨⟨some 36000000, "sopelana", [], ⟨0, 0⟩, 0⟩, none, none⟩,
             ⟨⟨some 32400000, "sopelana", [], ⟨0, 0⟩, 0⟩, none, none⟩,
             ⟨⟨some 39600000, "sopelana", [], ⟨0, 0⟩, 0⟩, none, none⟩])).find?
          (runLongEnough 2)).bind mkRunWindow :=
  ⟨by norm_num, C2_firstConsecutiveWindow_eq_firstRun _ 2 (by norm_num)⟩

set_option maxRecDepth 4000 in
example :
    firstConsecutiveWindow
        [⟨⟨some 36000000, "sopelana", [], ⟨0, 0⟩, 0⟩, none, none⟩,
         ⟨⟨some 32400000, "sopelana", [], ⟨0, 0⟩, 0⟩, none, none⟩,
         ⟨⟨some 39600000, "sopelana", [], ⟨0, 0⟩, 0⟩, none, none⟩] 2 =
      some ⟨⟨⟨some 32400000, "sopelana", [], ⟨0, 0⟩, 0⟩, none, none⟩,
            ⟨⟨some 39600000, "sopelana", [], ⟨0, 0⟩, 0⟩, none, none⟩, 3,
            [⟨⟨some 32400000, "sopelana", [], ⟨0, 0⟩, 0⟩, none, none⟩,
             ⟨⟨some 36000000, "sopelana", [], ⟨0, 0⟩, 0⟩, none, none⟩,
             ⟨⟨some 39600000, "sopelana", [], ⟨0, 0⟩, 0⟩, none, none⟩]⟩ := by
  decide

set_option maxRecDepth 4000 in
example :
    firstConsecutiveWindow
        [⟨⟨some 32400000, "sopelana", [], ⟨0, 0⟩, 0⟩, none, none⟩,
         ⟨⟨some 39600000, "sopelana", [], ⟨0, 0⟩, 0⟩, none, none⟩] 2 = none := by
  decide

/-- C1: `shouldSendWindow prev next` is `true` exactly when there is no
previous window or the candidate is not contained in it, containment meaning
`next.startMs ≥ prev.startMs` and `next.endMs ≤ prev.endMs` (equality of both
bounds is a special case of containment, so the dedicated equality branch of
the source changes nothing); in particular an absent previous window always
yields `true`, and any window that extends forward or backward or is
disjoint/shifted yields `true`. -/
theorem C1_shouldSendWindow_iff (prev : Option AlertWindow) (next : AlertWindow) :
    shouldSendWindow prev next = true ↔
      (prev = none ∨
        ∃ l, prev = some l ∧ ¬(next.startMs ≥ l.startMs ∧ next.endMs ≤ l.endMs)) := by
  have key : ∀ (l : AlertWindow),
      shouldSendWindow (some l) next =
        !(decide (next.startMs ≥ l.startMs ∧ next.endMs ≤ l.endMs)) := by
    intro l
    simp only [shouldSendWindow]
    by_cases he : next.startMs = l.startMs ∧ next.endMs = l.endMs
    · rw [if_pos he]
      have hc : next.startMs ≥ l.startMs ∧ next.endMs ≤ l.endMs :=
        ⟨le_of_eq he.1.symm, le_of_eq he.2⟩
      simp [hc]
    · rw [if_neg he]
      by_cases hc : next.startMs ≥ l.startMs ∧ next.endMs ≤ l.endMs
      · simp [hc]
      · simp [hc]
  cases prev with
  | none => simp [shouldSendWindow]
  | some l =>
    rw [key]
    constructor
    · intro h
      refine Or.inr ⟨l, rfl, ?_⟩
      have h2 : next.startMs < l.startMs ∨ l.endMs < next.endMs := by simpa using h
      omega
    · rintro (h | ⟨l2, hl2, hnc⟩)
      · exact absurd h (by simp)
      · obtain rfl : l = l2 := Option.some_inj.mp hl2
        simp only [Bool.not_eq_true', decide_eq_false_iff_not]
        exact hnc

example : shouldSendWindow (some ⟨1000, 5000⟩) ⟨1000, 5000⟩ = false := by decide

example : shouldSendWindow (some ⟨1000, 5000⟩) ⟨2000, 4000⟩ = false := by decide

example : shouldSendWindow (some ⟨1000, 5000⟩) ⟨1000, 7000⟩ = true := by decide

example : shouldSendWindow (some ⟨1000, 5000⟩) ⟨6000, 9000⟩ = true := by decide

/-- C10: the detailed matcher and the boolean matcher agree: the `pass`
field of `matchDetail` equals `matches` on every rule and sample, so the
discard histogram and the match decision can never disagree. -/
theorem C10_matchDetail_pass_eq_matches (alert : AlertRule) (f : SurfForecast) :
    (matchDetail alert f).pass = matchesFn alert f := rfl

/-- Membership of an angle in one wind interval, written as the spec words
it: a normal closed range when `min ≤ max`, and the circular reading
`angle ≥ min OR angle ≤ max` when `min > max`. -/
def windIntervalSpec (a : ℚ) (r : NumRange) : Prop :=
  (r.min ≤ r.max ∧ r.min ≤ a ∧ a ≤ r.max) ∨ (r.max < r.min ∧ (r.min ≤ a ∨ a ≤ r.max))

theorem isWindInRange_iff (a mn mx : ℚ) :
    isWindInRange a mn mx = true ↔
      (mn ≤ mx ∧ mn ≤ a ∧ a ≤ mx) ∨ (mx < mn ∧ (mn ≤ a ∨ a ≤ mx)) := by
  unfold isWindInRange
  by_cases h : mn ≤ mx
  · rw [if_pos h]
    simp only [Bool.and_eq_true, decide_eq_true_eq, ge_iff_le]
    constructor
    · rintro ⟨h1, h2⟩; exact Or.inl ⟨h, h1, h2⟩
    · rintro (⟨_, h1, h2⟩ | ⟨hlt, _⟩)
      · exact ⟨h1, h2⟩
      · exact absurd hlt (not_lt.mpr h)
  · rw [if_neg h]
    have hlt : mx < mn := not_le.mp h
    simp only [Bool.or_eq_true, decide_eq_true_eq, ge_iff_le]
    constructor
    · intro hd; exact Or.inr ⟨hlt, hd⟩
    · rintro (⟨hle, _⟩ | ⟨_, hd⟩)
      · exact absurd hle h
      · exact hd

/-- C3: the wind dimension of the matcher.  The normalized angle always lies
in `[0, 360)`, and the wind dimension passes exactly when the rule has no
wind intervals (absent or empty list) or the normalized angle lies in at
least one configured interval, with `min ≤ max` read as a closed range and
`min > max` read circularly as `angle ≥ min OR angle ≤ max`. -/
theorem C3_wind_dimension_iff (alert : AlertRule) (f : SurfForecast) :
    (0 ≤ normalizeAngle f.wind.angle ∧ normalizeAngle f.wind.angle < 360) ∧
      ((matchDetail alert f).wind = true ↔
        (hasElems alert.windRanges = false ∨
          ∃ r ∈ alert.windRanges.getD [],
            windIntervalSpec (normalizeAngle f.wind.angle) r)) := by
  constructor
  · have hfr : normalizeAngle f.wind.angle = 360 * Int.fract (f.wind.angle / 360) := by
      have h360 : (360 : ℚ) * (f.wind.angle / 360) = f.wind.angle := by field_simp
      unfold normalizeAngle Int.fract
      rw [mul_sub, h360]
    constructor
    · rw [hfr]
      have := Int.fract_nonneg (f.wind.angle / 360)
      positivity
    · rw [hfr]
      have hlt := Int.fract_lt_one (f.wind.angle / 360)
      nlinarith [hlt]
  · simp only [matchDetail]
    cases hh : hasElems alert.windRanges with
    | false => simp
    | true =>
      simp only [Bool.not_true, Bool.false_or, Bool.true_eq_false, false_or,
        List.any_eq_true]
      constructor
      · rintro ⟨r, hr, hw⟩
        exact ⟨r, hr, (isWindInRange_iff _ _ _).mp hw⟩
      · rintro ⟨r, hr, hw⟩
        exact ⟨r, hr, (isWindInRange_iff _ _ _).mpr hw⟩

example :
    isWindInRange (normalizeAngle 350) 337.5 22.5 = true := by
  with_unfolding_all decide

example :
    isWindInRange (normalizeAngle 100) 337.5 22.5 = false := by
  with_unfolding_all decide

/-! ## TideEstimator (source `core/check-runner.ts` and
`core/alert-engine.ts`) -/

/-- Substring test on character lists (the JavaScript `String.includes`). -/
def containsSub (pat : List Char) : List Char → Bool
  | [] => pat.isEmpty
  | c :: t => pat.isPrefixOf (c :: t) || containsSub pat t

/-- The source test `String(e.tipo).toLowerCase().includes(needle)`. -/
def tipoIncludes (tipo needle : String) : Bool :=
  containsSub needle.toList tipo.toLower.toList

/-- The tide-type needle for a high preference. -/
def needlePleamar : String := "pleamar"

/-- The tide-type needle for a low preference. -/
def needleBajamar : String := "bajamar"

/-- Source `findNearestTideTsByType` (core `check-runner.ts`): the timestamp
of the event of the requested type nearest in absolute time to the target,
`none` when no parseable event of that type exists.  Ties keep the earlier
scanned event (`diff < bestDiff` is strict). -/
def findNearestTideTsByType (tMs : ℤ) (events : List TideEvent)
    (ty : TidePref) : Option ℤ :=
  let needle := if ty = TidePref.high then needlePleamar else needleBajamar
  (events.foldl
    (fun best e =>
      if !(tipoIncludes e.tipo needle) then best
      else
        match e.atMs with
        | none => best
        | some atv =>
          let diff := |atv - tMs|
          match best with
          | none => some (atv, diff)
          | some (b, bd) => if diff < bd then some (atv, diff) else some (b, bd))
    none).map Prod.fst

/-- Source `tideClassByHeight`: tertile classification of a height within
the observed daily range, degenerate ranges classified as `mid`. -/
def tideClassByHeight (height minh maxh : ℚ) : TidePref :=
  let span := maxh - minh
  if span ≤ 0 then TidePref.mid
  else
    let ratio := (height - minh) / span
    if ratio < 1 / 3 then TidePref.low
    else if ratio < 2 / 3 then TidePref.mid
    else TidePref.high

/-- The parseable events of a day turned into `(timestamp, height)` rows and
stably sorted by timestamp (source `estimateTideHeightAt`, rows
construction). -/
def tideRows (events : List TideEvent) : List (ℤ × ℚ) :=
  List.insertionSort (fun a b => a.1 ≤ b.1)
    (events.filterMap (fun e => e.atMs.map (fun t => (t, e.altura))))

/-- The bracketing scan of `estimateTideHeightAt`: the first adjacent pair
of rows enclosing the target yields the linear interpolation. -/
def interpPairs (t : ℤ) : List (ℤ × ℚ) → Option ℚ
  | (ta, ha) :: (tb, hb) :: rest =>
    if ta ≤ t ∧ t ≤ tb then
      some (ha + (hb - ha) * (((t - ta : ℤ) : ℚ) / ((tb - ta : ℤ) : ℚ)))
    else interpPairs t ((tb, hb) :: rest)
  | _ => none

/-- Source `estimateTideHeightAt`: piecewise-linear interpolation of the
tide height at a target time, clamping outside the event range and unknown
(`none`) for a day without parseable events. -/
def estimateTideHeightAt (t : ℤ) (events : List TideEvent) : Option ℚ :=
  match tideRows events with
  | [] => none
  | r0 :: rs =>
    if t ≤ r0.1 then some r0.2
    else if t ≥ (((r0 :: rs).getLast?).getD r0).1 then
      some (((r0 :: rs).getLast?).getD r0).2
    else interpPairs t (r0 :: rs)

/-- Source `findNearestTides` (core `alert-engine.ts`): nearest low and high
events to a target, for the message payload. -/
def findNearestTides (tMs : ℤ) (events : List TideEvent) :
    Option TideEvent × Option TideEvent :=
  let st := events.foldl
    (fun (st : Option (TideEvent × ℤ) × Option (TideEvent × ℤ)) e =>
      match e.atMs with
      | none => st
      | some atv =>
        let diff := |atv - tMs|
        let low :=
          if tipoIncludes e.tipo needleBajamar then
            match st.1 with
            | none => some (e, diff)
            | some (b, bd) => if diff < bd then some (e, diff) else some (b, bd)
          else st.1
        let high :=
          if tipoIncludes e.tipo needlePleamar then
            match st.2 with
            | none => some (e, diff)
            | some (b, bd) => if diff < bd then some (e, diff) else some (b, bd)
          else st.2
        (low, high))
    (none, none)
  (st.1.map Prod.fst, st.2.map Prod.fst)

/-- Strictly ascending timestamps of a row list, as an executable
predicate. -/
def strictAsc : List (ℤ × ℚ) → Bool
  | [] => true
  | [_] => true
  | a :: b :: t => decide (a.1 < b.1) && strictAsc (b :: t)

theorem strictAsc_tail {x : ℤ × ℚ} {l : List (ℤ × ℚ)}
    (h : strictAsc (x :: l) = true) : strictAsc l = true := by
  cases l with
  | nil => rfl
  | cons y t =>
    rw [strictAsc, Bool.and_eq_true] at h
    exact h.2

theorem strictAsc_suffix {m : List (ℤ × ℚ)} :
    ∀ {l : List (ℤ × ℚ)}, strictAsc (l ++ m) = true → strictAsc m = true := by
  intro l
  induction l with
  | nil => intro h; simpa using h
  | cons x t ih =>
    intro h
    exact ih (strictAsc_tail h)

theorem strictAsc_lt_of_mem {p : ℤ × ℚ} {rest : List (ℤ × ℚ)} :
    ∀ {l : List (ℤ × ℚ)}, strictAsc (l ++ p :: rest) = true →
      ∀ y ∈ l, y.1 < p.1 := by
  intro l
  induction l with
  | nil => intro _ y hy; exact absurd hy (List.not_mem_nil y)
  | cons x t ih =>
    intro h y hy
    rcases List.mem_cons.mp hy with rfl | hyt
    · cases t with
      | nil =>
        simp only [List.cons_append, List.nil_append, strictAsc,
          Bool.and_eq_true] at h
        exact of_decide_eq_true (by exact_mod_cast h.1)
      | cons z zs =>
        have h1 : y.1 < z.1 := by
          rw [List.cons_append, List.cons_append, strictAsc, Bool.and_eq_true] at h
          exact of_decide_eq_true h.1
        have h2 : z.1 < p.1 :=
          ih (strictAsc_tail h) z (List.mem_cons_self z zs)
        exact lt_trans h1 h2
    · exact ih (strictAsc_tail h) y hyt

theorem strictAsc_head_le_getLast {p : ℤ × ℚ} :
    ∀ {l : List (ℤ × ℚ)}, strictAsc (p :: l) = true →
      ∀ rl ∈ (p :: l).getLast?, p.1 ≤ rl.1 := by
  intro l
  induction l generalizing p with
  | nil =>
    intro _ rl hrl
    simp only [List.getLast?_singleton, Option.mem_def, Option.some_inj] at hrl
    subst hrl; exact le_refl _
  | cons q t ih =>
    intro h rl hrl
    have hpq : p.1 < q.1 := by
      rw [strictAsc, Bool.and_eq_true] at h
      exact of_decide_eq_true h.1
    have htail : strictAsc (q :: t) = true := strictAsc_tail h
    have hrl2 : rl ∈ (q :: t).getLast? := by
      simpa [List.getLast?_cons_cons] using hrl
    exact le_of_lt (lt_of_lt_of_le hpq (ih htail rl hrl2))

theorem tideRows_eq_nil_iff (events : List TideEvent) :
    tideRows events = [] ↔ ∀ e ∈ events, e.atMs = none := by
  unfold tideRows
  constructor
  · intro h
    have hp := List.perm_insertionSort (fun a b : ℤ × ℚ => a.1 ≤ b.1)
      (events.filterMap (fun e => e.atMs.map (fun tt => (tt, e.altura))))
    rw [h] at hp
    have hnil := hp.symm.eq_nil
    intro e he
    have := List.filterMap_eq_nil_iff.mp hnil e he
    exact Option.map_eq_none'.mp this
  · intro h
    have hnil : events.filterMap (fun e => e.atMs.map (fun tt => (tt, e.altura))) = [] :=
      List.filterMap_eq_nil_iff.mpr (fun e he => by rw [h e he]; rfl)
    rw [hnil]
    rfl

theorem interpPairs_append (t ta tb : ℤ) (ha hb : ℚ) (l2 : List (ℤ × ℚ))
    (h1 : ta < t) (h2 : t ≤ tb) :
    ∀ l1 : List (ℤ × ℚ), (∀ y ∈ l1, y.1 < t) →
      interpPairs t (l1 ++ (ta, ha) :: (tb, hb) :: l2) =
        some (ha + (hb - ha) * (((t - ta : ℤ) : ℚ) / ((tb - ta : ℤ) : ℚ))) := by
  intro l1
  induction l1 with
  | nil =>
    intro _
    simp only [List.nil_append, interpPairs]
    rw [if_pos ⟨le_of_lt h1, h2⟩]
  | cons x xs ih =>
    intro hy
    cases xs with
    | nil =>
      simp only [List.cons_append, List.nil_append, interpPairs]
      rw [if_neg (fun hcon => absurd hcon.2 (not_le.mpr h1))]
      rw [if_pos ⟨le_of_lt h1, h2⟩]
    | cons y ys =>
      have hylt : y.1 < t := hy y (by simp)
      simp only [List.cons_append, interpPairs]
      rw [if_neg (fun hcon => absurd hcon.2 (not_le.mpr hylt))]
      exact ih (fun z hz => hy z (List.mem_cons_of_mem x hz))

/-- C6: the tide interpolation.  (1) A day with no parseable events yields
unknown.  (2) A target at or before the first (time-sorted, parseable) event
clamps to its height, and (3) a target strictly after the first event and at
or after the last clamps to the last height.  (4) For strictly ascending
rows, a target with `ta < t ≤ tb` for an adjacent pair interpolates
linearly: `ha + (hb - ha) * (t - ta) / (tb - ta)`. -/
theorem C6_estimateTide_spec (t : ℤ) (events : List TideEvent) :
    ((∀ e ∈ events, e.atMs = none) → estimateTideHeightAt t events = none) ∧
    (∀ r0 rs, tideRows events = r0 :: rs → t ≤ r0.1 →
      estimateTideHeightAt t events = some r0.2) ∧
    (∀ r0 rs rl, tideRows events = r0 :: rs → (r0 :: rs).getLast? = some rl →
      r0.1 < t → rl.1 ≤ t → estimateTideHeightAt t events = some rl.2) ∧
    (∀ l1 ta ha tb hb l2, tideRows events = l1 ++ (ta, ha) :: (tb, hb) :: l2 →
      strictAsc (tideRows events) = true → ta < t → t ≤ tb →
      estimateTideHeightAt t events =
        some (ha + (hb - ha) * (((t - ta : ℤ) : ℚ) / ((tb - ta : ℤ) : ℚ)))) := by
  refine ⟨?_, ?_, ?_, ?_⟩
  · intro h
    have hr : tideRows events = [] := (tideRows_eq_nil_iff events).mpr h
    unfold estimateTideHeightAt
    rw [hr]
  · intro r0 rs hr hle
    unfold estimateTideHeightAt
    rw [hr]
    simp only
    rw [if_pos hle]
  · intro r0 rs rl hr hlast hr0 hrl
    unfold estimateTideHeightAt
    rw [hr]
    simp only [hlast, Option.getD_some]
    rw [if_neg (not_le.mpr hr0), if_pos hrl]
  · intro l1 ta ha tb hb l2 hdec hasc h1 h2
    have hform := interpPairs_append t ta tb ha hb l2 h1 h2 l1
      (fun y hy => lt_trans (strictAsc_lt_of_mem (hdec ▸ hasc) y hy) h1)
    obtain ⟨r0, rs, hr⟩ : ∃ r0 rs, tideRows events = r0 :: rs := by
      cases hrows : tideRows events with
      | nil =>
        rw [hrows] at hdec
        exact absurd hdec.symm (List.append_ne_nil_of_right_ne_nil l1 (by simp))
      | cons a b => exact ⟨a, b, rfl⟩
    have hrows : (r0 :: rs : List (ℤ × ℚ)) = l1 ++ (ta, ha) :: (tb, hb) :: l2 := by
      rw [← hr, hdec]
    have hascr : strictAsc (r0 :: rs) = true := by rw [hr] at hasc; exact hasc
    -- the head is strictly before the target
    have hhead : r0.1 < t := by
      cases l1 with
      | nil =>
        have : r0 = (ta, ha) := by
          simpa using congrArg List.head? hrows
        rw [this]; exact h1
      | cons x xs =>
        have hmem : r0 ∈ x :: xs := by
          have : r0 = x := by simpa using congrArg List.head? hrows
          rw [this]; exact List.mem_cons_self x xs
        exact lt_trans
          (strictAsc_lt_of_mem (hrows ▸ hascr) r0 hmem) h1
    unfold estimateTideHeightAt
    rw [hr]
    simp only
    rw [if_neg (not_le.mpr hhead)]
    -- analyse the clamp-to-last branch
    cases hl2 : l2 with
    | nil =>
      have hlast : (r0 :: rs).getLast? = some (tb, hb) := by
        rw [hrows, hl2]
        rw [List.getLast?_append_of_ne_nil _ (by simp : ((ta, ha) :: (tb, hb) :: [] : List (ℤ × ℚ)) ≠ [])]
        rfl
      simp only [hlast, Option.getD_some]
      by_cases hclamp : t ≥ tb
      · have hteq : t = tb := le_antisymm h2 hclamp
        rw [if_pos hclamp]
        have hne : ((tb - ta : ℤ) : ℚ) ≠ 0 := by
          have : ta < tb := lt_of_lt_of_le h1 h2
          intro hcon
          have : (tb - ta : ℤ) = 0 := by exact_mod_cast hcon
          omega
        subst hteq
        rw [div_self hne]
        norm_num
      · rw [if_neg hclamp]
        rw [hrows]
        exact hform
    | cons z l2x =>
      have hsuffix : strictAsc ((ta, ha) :: (tb, hb) :: z :: l2x) = true := by
        apply strictAsc_suffix (l := l1)
        rw [← hl2, ← hrows]
        exact hascr
      have htbz : tb < z.1 := by
        have := strictAsc_tail hsuffix
        rw [strictAsc, Bool.and_eq_true] at this
        exact of_decide_eq_true this.1
      have hz : strictAsc (z :: l2x) = true := strictAsc_tail (strictAsc_tail hsuffix)
      obtain ⟨rl, hrl⟩ : ∃ rl, (z :: l2x).getLast? = some rl := by
        cases hgl : (z :: l2x).getLast? with
        | none => exact absurd hgl (by simp [List.getLast?_eq_none_iff])
        | some a => exact ⟨a, rfl⟩
      have hzrl : z.1 ≤ rl.1 := strictAsc_head_le_getLast hz rl hrl
      have hlast : (r0 :: rs).getLast? = some rl := by
        rw [hrows, hl2]
        rw [List.getLast?_append_of_ne_nil _ (by simp : ((ta, ha) :: (tb, hb) :: z :: l2x : List (ℤ × ℚ)) ≠ [])]
        simp only [List.getLast?_cons_cons]
        exact hrl
      have hrlgt : ¬ t ≥ rl.1 := by
        have : tb < rl.1 := lt_of_lt_of_le htbz hzrl
        omega
      simp only [hlast, Option.getD_some]
      rw [if_neg hrlgt]
      rw [hrows]
      exact hform

/-- C6 witness: a target exactly halfway between a 0.8 m event and a 3.2 m
event yields 2.0 m, through clause 4 of the theorem. -/
theorem C6_witness :
    estimateTideHeightAt 3600000
        [⟨some 0, 0.8, needleBajamar⟩, ⟨some 7200000, 3.2, needlePleamar⟩] =
      some 2 := by
  have h := (C6_estimateTide_spec 3600000
      [⟨some 0, 0.8, needleBajamar⟩, ⟨some 7200000, 3.2, needlePleamar⟩]).2.2.2
      [] 0 0.8 7200000 3.2 []
      (by with_unfolding_all decide)
      (by with_unfolding_all decide)
      (by decide) (by decide)
  rw [h]
  norm_num

/-! ## CivilTimeScheduler (source `core/scheduler.ts`,
`msUntilNextMadridHourMinute`) -/

/-- Modelled from the spec: the civil minute-of-hour of an instant in the
Europe/Madrid zone.  The source computes it through the platform
`Intl.DateTimeFormat` calendar conversion (`madridParts`, in `core/time.ts`);
Europe/Madrid keeps a whole-hour offset from UTC at every modern instant, so
the civil minute equals the UTC minute of the instant.  Division on `ℤ` is
Euclidean division, which agrees with `Math.floor` division for the positive
divisor. -/
def madridMinute (tMs : ℤ) : ℤ := tMs / 60000 % 60

/-- The first minute boundary scanned by the source:
`Math.floor((nowMs + 1_000) / 60_000) * 60_000`. -/
def firstMinuteBoundary (nowMs : ℤ) : ℤ := (nowMs + 1000) / 60000 * 60000

/-- Source `MAX_SCAN_MINUTES`. -/
def maxScanMinutes : ℕ := 6 * 60

/-- Source `msUntilNextMadridHourMinute`: scan minute boundaries forward
from `now` (bounded by `maxScanMinutes`) and return the clamped delay to the
first strictly-future boundary whose Madrid civil minute equals the target;
`none` models the `RangeError` thrown for a target outside `[0, 59]`, and
the fallback of one hour is returned when the scan finds nothing. -/
def msUntilNextMadridHourMinute (nowMs minute : ℤ) : Option ℤ :=
  if minute < 0 ∨ 59 < minute then none
  else
    some ((((List.range (maxScanMinutes + 1)).findSome? (fun (offset : ℕ) =>
      let c := firstMinuteBoundary nowMs + (offset : ℤ) * 60000
      if c ≤ nowMs then none
      else if madridMinute c = minute then some (max 1000 (c - nowMs))
      else none))).getD (max 1000 3600000))

theorem findSome?_range'_eq_some {f : ℕ → Option ℤ} {d : ℤ} :
    ∀ (n s k : ℕ), s ≤ k → k < s + n → f k = some d →
      (∀ j, s ≤ j → j < k → f j = none) →
      (List.range' s n).findSome? f = some d := by
  intro n
  induction n with
  | zero => intro s k h1 h2; omega
  | succ m ih =>
    intro s k h1 h2 hk hnone
    rw [show List.range' s (m + 1) = s :: List.range' (s + 1) m from
      List.range'_succ s m 1 ▸ rfl]
    rw [List.findSome?_cons]
    by_cases hs : s = k
    · subst hs
      rw [hk]
    · have hns : f s = none := hnone s (le_refl s) (by omega)
      rw [hns]
      exact ih (s + 1) k (by omega) (by omega) hk (fun j hj1 hj2 => hnone j (by omega) hj2)

/-- C7 counterexample: with the target minute 10 and `now` only 500 ms before
the qualifying boundary 600000 (which lies in the scan range), the function
returns the clamped delay 1000, and `now + 1000` is not the first qualifying
boundary — it is not a minute boundary at all.  This refutes the claim that
`now + d` is always the first qualifying boundary when one exists within the
scan bound. -/
theorem C7_counterexample :
    msUntilNextMadridHourMinute 599500 10 = some 1000 ∧
    ((60000 : ℤ) ∣ 600000 ∧ (599500 : ℤ) < 600000 ∧ madridMinute 600000 = 10 ∧
      (600000 : ℤ) ≤ firstMinuteBoundary 599500 + 360 * 60000) ∧
    (599500 + 1000 : ℤ) ≠ 600000 ∧ ¬((60000 : ℤ) ∣ (599500 + 1000)) := by
  refine ⟨?_, ⟨⟨10, by norm_num⟩, by norm_num, by decide, by decide⟩, by norm_num, ?_⟩
  · decide
  · intro hdvd
    omega

/-- C7 (amended): the delay is always defined and at least 1000 ms for a
target minute in `[0, 59]`; and whenever the first strictly-future minute
boundary with the target civil minute lies within the scanned range and is
at least 1000 ms away, the returned delay lands exactly on it.  (The claim
as frozen omits the 1000 ms clamp; `C7_counterexample` shows the clamp is
observable when the boundary is nearer than one second.) -/
theorem C7_scheduler_amended (nowMs minute : ℤ)
    (h0 : 0 ≤ minute) (h59 : minute ≤ 59) :
    (∃ d, msUntilNextMadridHourMinute nowMs minute = some d ∧ 1000 ≤ d) ∧
    (∀ B : ℤ, (60000 : ℤ) ∣ B → nowMs < B → madridMinute B = minute →
      B ≤ firstMinuteBoundary nowMs + 360 * 60000 →
      (∀ B2 : ℤ, (60000 : ℤ) ∣ B2 → nowMs < B2 → madridMinute B2 = minute → B ≤ B2) →
      1000 ≤ B - nowMs →
      msUntilNextMadridHourMinute nowMs minute = some (B - nowMs)) := by
  have hguard : ¬(minute < 0 ∨ 59 < minute) := by omega
  constructor
  · rw [msUntilNextMadridHourMinute, if_neg hguard]
    cases hfs : (List.range (maxScanMinutes + 1)).findSome? (fun (offset : ℕ) =>
        let c := firstMinuteBoundary nowMs + (offset : ℤ) * 60000
        if c ≤ nowMs then none
        else if madridMinute c = minute then some (max 1000 (c - nowMs))
        else none) with
    | none => exact ⟨max 1000 3600000, rfl, le_max_left _ _⟩
    | some d =>
      refine ⟨d, rfl, ?_⟩
      obtain ⟨a, _, hfa⟩ := List.exists_of_findSome?_eq_some hfs
      simp only at hfa
      split at hfa
      · exact absurd hfa (by simp)
      · split at hfa
        · rw [Option.some_inj] at hfa
          rw [← hfa]
          exact le_max_left _ _
        · exact absurd hfa (by simp)
  · intro B hdvd hgt hmin hbound hfirst hfar
    have hfb0 : firstMinuteBoundary nowMs % 60000 = 0 := by
      unfold firstMinuteBoundary
      omega
    have hFle : firstMinuteBoundary nowMs ≤ nowMs + 1000 := by
      unfold firstMinuteBoundary
      omega
    have hBmod : B % 60000 = 0 := by omega
    have hBge : firstMinuteBoundary nowMs ≤ B := by omega
    set k : ℕ := ((B - firstMinuteBoundary nowMs) / 60000).toNat with hkdef
    have hkB : B = firstMinuteBoundary nowMs + (k : ℤ) * 60000 := by omega
    have hk360 : k ≤ 360 := by
      have : (k : ℤ) ≤ 360 := by omega
      exact_mod_cast this
    rw [msUntilNextMadridHourMinute, if_neg hguard]
    have hfound :
        (List.range (maxScanMinutes + 1)).findSome? (fun (offset : ℕ) =>
          let c := firstMinuteBoundary nowMs + (offset : ℤ) * 60000
          if c ≤ nowMs then none
          else if madridMinute c = minute then some (max 1000 (c - nowMs))
          else none) = some (B - nowMs) := by
      rw [List.range_eq_range']
      refine findSome?_range'_eq_some (maxScanMinutes + 1) 0 k (Nat.zero_le k)
        (by simpa [maxScanMinutes] using Nat.lt_succ_of_le hk360) ?_ ?_
      · simp only
        rw [if_neg (by omega : ¬(firstMinuteBoundary nowMs + (k : ℤ) * 60000 ≤ nowMs))]
        rw [if_pos (by rw [← hkB]; exact hmin)]
        rw [← hkB]
        rw [max_eq_right hfar]
      · intro j _ hjk
        simp only
        by_cases hle : firstMinuteBoundary nowMs + (j : ℤ) * 60000 ≤ nowMs
        · rw [if_pos hle]
        · rw [if_neg hle]
          rw [if_neg ?_]
          intro hmj
          have hqual := hfirst (firstMinuteBoundary nowMs + (j : ℤ) * 60000)
            (by omega) (by omega) hmj
          have hjlt : (j : ℤ) < (k : ℤ) := by exact_mod_cast hjk
          omega
    rw [hfound]
    rfl

/-- C7 witness: the 19:28 example of the spec — target minute 10, now at
19:28 local (modelled at 66480000 ms, minute 28), the first qualifying
boundary is 42 minutes ahead and the theorem yields exactly that delay. -/
theorem C7_witness :
    (0 : ℤ) ≤ 10 ∧ (10 : ℤ) ≤ 59 ∧
      msUntilNextMadridHourMinute 66480000 10 = some (69000000 - 66480000) := by
  refine ⟨by norm_num, by norm_num, ?_⟩
  refine (C7_scheduler_amended 66480000 10 (by norm_num) (by norm_num)).2 69000000
    ⟨1150, by norm_num⟩ (by norm_num) (by decide) (by decide) ?_ (by norm_num)
  intro B2 hdvd hgt hm
  obtain ⟨c, hc⟩ := hdvd
  have hcmod : B2 % 60000 = 0 := by omega
  have hmm : B2 / 60000 % 60 = 10 := hm
  omega

/-! ## EvaluationRunner (source `core/check-runner.ts`, `runChecksWithDeps`)

The runner is split, following the source order, into a store-independent
phase (enabled check, memoized fetch, light/match loop, candidate tide
filter, window detection, match-record hook) and a store-dependent phase
(dedupe decision, message build, send, store update, sent-record hook); the
`try/catch` of the source surrounds both.  Collaborators are pure
`Except`-returning functions, and counters mutated before a throw persist,
matching JavaScript semantics. -/

/-- Default tide reference port: `alert.tidePortId ?? '72'`. -/
def defaultTidePort : String := "72"

/-- The tide port of a rule. -/
def tidePortOf (a : AlertRule) : String := a.tidePortId.getD defaultTidePort

/-- The notification payload handed to `sendMessage`.  Message formatting
(`buildAlertMessage`) is presentation only and is modelled as the record of
its inputs. -/
structure MessagePayload where
  alert : AlertRule
  first : SurfForecast
  startMs : ℤ
  endMs : ℤ
  nearestTides : Option TideEvent × Option TideEvent
  windowForecasts : List SurfForecast
  deriving DecidableEq

/-- Collaborators and configuration of one run (source `CheckRunnerDeps`).
The instrumentation callbacks (`recordNotificationMatch`,
`recordNotificationSent`, `touchAlertNotified`) and the window store
accessors (`getLastWindow`, `setLastWindow`) are modelled through the event
log and the threaded store; `nowMs` replaces the `Date.now` default. -/
structure CheckRunnerDeps where
  alerts : List AlertRule
  minConsecutiveHours : ℚ
  fetchForecasts : Option String → Except String (List SurfForecast)
  isWithinAlertWindow : String → ℤ → Except String Bool
  getTideEventsForDate : String → String → Except String (List TideEvent)
  apiDateFromForecastDate : Option ℤ → String
  sendMessage : ℤ → MessagePayload → Except String Unit
  nowMs : ℤ

/-- Source `DiscardReasons`. -/
structure DiscardReasons where
  wave : ℕ
  period : ℕ
  energy : ℕ
  wind : ℕ
  tide : ℕ
  light : ℕ
  deriving DecidableEq

/-- The all-zero histogram. -/
def DiscardReasons.zero : DiscardReasons := ⟨0, 0, 0, 0, 0, 0⟩

/-- Pointwise sum of histograms. -/
def DiscardReasons.add (a b : DiscardReasons) : DiscardReasons :=
  ⟨a.wave + b.wave, a.period + b.period, a.energy + b.energy,
    a.wind + b.wind, a.tide + b.tide, a.light + b.light⟩

/-- Source `CheckRunStats`. -/
structure CheckRunStats where
  totalAlerts : ℕ
  matched : ℕ
  notified : ℕ
  errors : ℕ
  passAll : ℕ
  spots : List String
  discardReasons : DiscardReasons
  deriving DecidableEq

/-- First-occurrence deduplication with an accumulator of already-seen
elements. -/
def firstOccurrencesAux {α : Type} [DecidableEq α] (seen : List α) :
    List α → List α
  | [] => []
  | a :: t =>
    if a ∈ seen then firstOccurrencesAux seen t
    else a :: firstOccurrencesAux (a :: seen) t

/-- First-occurrence deduplication, the model of `[...new Set(xs)]`. -/
def firstOccurrences {α : Type} [DecidableEq α] (l : List α) : List α :=
  firstOccurrencesAux [] l

/-- Observable events of a run, in execution order.  `fetch` records a call
to `fetchForecasts`; `matchRec` and `sentRec` the optional instrumentation
hooks; `send` a call to `sendMessage`; `touch` the `touchAlertNotified`
callback.  The rule value is recorded so that events can be attributed to
the rule whose evaluation produced them. -/
inductive RunEvent where
  | fetch (spotId : Option String)
  | matchRec (alert : AlertRule) (window : AlertWindow)
  | send (alert : AlertRule) (chatId : ℤ)
  | sentRec (alert : AlertRule) (window : AlertWindow)
  | touch (alertId : String) (atMs : ℤ)
  deriving DecidableEq

/-- The dedup key.  The source builds the string
`chatId:spotId:JSON(profile)` where the profile holds the filter ranges,
energy interval, tide preference and tide port; two rules collide exactly
when these components are structurally equal, which the record models. -/
structure DedupKey where
  chatId : ℤ
  spotId : Option String
  waveRanges : Option (List NumRange)
  periodRanges : Option (List NumRange)
  windRanges : Option (List NumRange)
  energyMin : ℚ
  energyMax : ℚ
  tidePreference : Option TidePref
  tidePortId : String
  deriving DecidableEq

/-- Source dedupe key construction (`buildAlertProfileKey` plus the
`chatId`/`spotId` prefix). -/
def dedupeKey (a : AlertRule) : DedupKey :=
  ⟨a.chatId, a.spotId, a.waveRanges, a.periodRanges, a.windRanges,
    a.energyMin, a.energyMax, a.tidePreference, tidePortOf a⟩

/-- The last-sent-window store (`lastSentWindows` map of the caller). -/
abbrev WindowStore := List (DedupKey × AlertWindow)

/-- Map lookup: first matching key. -/
def storeGet (s : WindowStore) (k : DedupKey) : Option AlertWindow :=
  List.lookup k s

/-- Map update (`setLastWindow`). -/
def storeSet (s : WindowStore) (k : DedupKey) (w : AlertWindow) : WindowStore :=
  (k, w) :: s

/-- The per-run forecast memo (`forecastsBySpot`). -/
abbrev ForecastCache := List (Option String × List SurfForecast)

/-- Cache lookup. -/
def cacheGet (c : ForecastCache) (k : Option String) : Option (List SurfForecast) :=
  List.lookup k c

/-- Cache fill on first access. -/
def cacheSet (c : ForecastCache) (k : Option String) (v : List SurfForecast) :
    ForecastCache :=
  (k, v) :: c

/-- The per-dimension discard increments of one non-passing sample. -/
def addFailedDims (d : MatchDetail) (dr : DiscardReasons) : DiscardReasons :=
  { dr with
    wave := dr.wave + (if d.wave then 0 else 1),
    period := dr.period + (if d.period then 0 else 1),
    energy := dr.energy + (if d.energy then 0 else 1),
    wind := dr.wind + (if d.wind then 0 else 1) }

/-- The per-sample loop of `runChecksWithDeps`: skip unparseable dates, then
the daylight filter (counted under `light`), then the detailed matcher
(matched samples collected, `passAll` counted, failing dimensions counted).
Returns the matched samples, the `passAll` increment, the histogram
increment and the error of a throwing `isWithinAlertWindow`; counts
accumulated before the throw persist. -/
def lightAndMatch (D : CheckRunnerDeps) (a : AlertRule) :
    List SurfForecast → (List SurfForecast × ℕ × DiscardReasons × Option String)
  | [] => ([], 0, DiscardReasons.zero, none)
  | f :: rest =>
    match f.date with
    | none => lightAndMatch D a rest
    | some ts =>
      match D.isWithinAlertWindow a.spot ts with
      | .error e => ([], 0, DiscardReasons.zero, some e)
      | .ok false =>
        let r := lightAndMatch D a rest
        (r.1, r.2.1, { r.2.2.1 with light := r.2.2.1.light + 1 }, r.2.2.2)
      | .ok true =>
        let detail := matchDetail a f
        let r := lightAndMatch D a rest
        if detail.pass then (f :: r.1, r.2.1 + 1, r.2.2.1, r.2.2.2)
        else (r.1, r.2.1, addFailedDims detail r.2.2.1, r.2.2.2)

/-- Smallest `altura` of a day's events (`Math.min(...alturas)`; only used
on non-empty lists). -/
def alturasMin : List TideEvent → ℚ
  | [] => 0
  | e :: es => (es.map TideEvent.altura).foldl min e.altura

/-- Largest `altura` of a day's events. -/
def alturasMax : List TideEvent → ℚ
  | [] => 0
  | e :: es => (es.map TideEvent.altura).foldl max e.altura

/-- The tide classification block of `buildCandidateMatches`: class and
height when the day has events and the estimate succeeds. -/
def tideClassOf (ts : ℤ) (tideEvents : List TideEvent) :
    Option TidePref × Option ℚ :=
  match tideEvents with
  | [] => (none, none)
  | _ :: _ =>
    match estimateTideHeightAt ts tideEvents with
    | some est =>
      (some (tideClassByHeight est (alturasMin tideEvents) (alturasMax tideEvents)),
        some est)
    | none => (none, none)

/-- The `high`/`low` gate selector of the source condition
`alert.tidePreference === 'high' || alert.tidePreference === 'low'`. -/
def prefHighLow (a : AlertRule) : Option TidePref :=
  match a.tidePreference with
  | some TidePref.high => some TidePref.high
  | some TidePref.low => some TidePref.low
  | _ => none

/-- Discarding one candidate for a tide reason: the `tide` histogram
increment of the final result, errors passed through. -/
def bcmDiscard (r : ℕ × Except String (List CandidateMatch)) :
    ℕ × Except String (List CandidateMatch) := (r.1 + 1, r.2)

/-- Keeping one candidate: classify the tide, apply the `mid` equality
check (`!tideClass || tideClass !== 'mid'` discards), and prepend the
candidate to the result. -/
def bcmKeep (a : AlertRule) (f : SurfForecast) (ts : ℤ)
    (tideEvents : List TideEvent)
    (r : ℕ × Except String (List CandidateMatch)) :
    ℕ × Except String (List CandidateMatch) :=
  let cls := tideClassOf ts tideEvents
  if a.tidePreference = some TidePref.mid ∧ cls.1 ≠ some TidePref.mid then
    bcmDiscard r
  else (r.1, r.2.map (fun out => ⟨f, cls.1, cls.2⟩ :: out))

/-- Source `buildCandidateMatches`: per matched sample, skip unparseable
dates, fetch the day's tide events, apply the ±3 h proximity gate for a
`high`/`low` preference (the source falsy check `!nearestTide` also
discards a nearest event at timestamp 0), then classify and keep.  Returns
the `tide` discard increment and either the candidate list or the first
thrown error; increments accumulated before the throw persist. -/
def buildCandidateMatches (D : CheckRunnerDeps) (a : AlertRule) :
    List SurfForecast → (ℕ × Except String (List CandidateMatch))
  | [] => (0, Except.ok [])
  | f :: rest =>
    match f.date with
    | none => buildCandidateMatches D a rest
    | some ts =>
      match D.getTideEventsForDate (tidePortOf a) (D.apiDateFromForecastDate f.date) with
      | .error e => (0, Except.error e)
      | .ok tideEvents =>
        match prefHighLow a with
        | some ty =>
          match findNearestTideTsByType ts tideEvents ty with
          | none => bcmDiscard (buildCandidateMatches D a rest)
          | some nt =>
            if nt = 0 then bcmDiscard (buildCandidateMatches D a rest)
            else if ts < nt - 3 * oneHourMs ∨ ts > nt + 3 * oneHourMs then
              bcmDiscard (buildCandidateMatches D a rest)
            else bcmKeep a f ts tideEvents (buildCandidateMatches D a rest)
        | none => bcmKeep a f ts tideEvents (buildCandidateMatches D a rest)

/-- Per-rule stats increments of the store-independent phase. -/
structure StatsDelta where
  matched : ℕ
  passAll : ℕ
  dr : DiscardReasons
  deriving DecidableEq

/-- The zero increment. -/
def StatsDelta.zero : StatsDelta := ⟨0, 0, DiscardReasons.zero⟩

/-- Data carried from the window-detection phase to the dedupe/send phase.
`startMs`/`endMs` are the window start and end item timestamps (the sent
window bound is `endMs + one hour`). -/
structure SendCtx where
  window : ConsecWindow
  startMs : ℤ
  endMs : ℤ
  newWindow : AlertWindow
  tableForecasts : List SurfForecast
  deriving DecidableEq

/-- Output of the store-independent phase. -/
structure Phase1Out where
  cache : ForecastCache
  delta : StatsDelta
  events : List RunEvent
  outcome : Except String (Option SendCtx)

/-- Hours of forecast context included around a window in the message table
(source `contextHours`). -/
def contextHours : ℤ := 4

/-- The store-independent phase after the forecasts are obtained: the empty
check, the light/match loop, candidate construction, window detection, the
window bounds and table slice, and the match-record hook. -/
def phase1Core (D : CheckRunnerDeps) (a : AlertRule) (cache : ForecastCache)
    (fetchEvents : List RunEvent)
    (forecastsE : Except String (List SurfForecast)) : Phase1Out :=
  match forecastsE with
  | .error e => ⟨cache, StatsDelta.zero, fetchEvents, .error e⟩
  | .ok forecasts =>
    if forecasts = [] then ⟨cache, StatsDelta.zero, fetchEvents, .ok none⟩
    else
      match lightAndMatch D a forecasts with
      | (matchesFound, passDelta, drDelta, errLight) =>
        match errLight with
        | some e => ⟨cache, ⟨0, passDelta, drDelta⟩, fetchEvents, .error e⟩
        | none =>
          if matchesFound = [] then
            ⟨cache, ⟨0, passDelta, drDelta⟩, fetchEvents, .ok none⟩
          else
            let bc := buildCandidateMatches D a matchesFound
            let delta1 : StatsDelta :=
              ⟨1, passDelta, { drDelta with tide := drDelta.tide + bc.1 }⟩
            match bc.2 with
            | .error e => ⟨cache, delta1, fetchEvents, .error e⟩
            | .ok candidates =>
              if candidates = [] then ⟨cache, delta1, fetchEvents, .ok none⟩
              else
                match firstConsecutiveWindow candidates (max 1 D.minConsecutiveHours) with
                | none => ⟨cache, delta1, fetchEvents, .ok none⟩
                | some w =>
                  let startMs := getTimeMs w.start.forecast.date
                  let endMs := getTimeMs w.endItem.forecast.date
                  let newWindow : AlertWindow := ⟨startMs, endMs + oneHourMs⟩
                  let orderedForecasts :=
                    List.insertionSort
                      (fun f1 f2 => getTimeMs f1.date ≤ getTimeMs f2.date)
                      (forecasts.filter (fun f => f.date.isSome))
                  let tableForecasts := orderedForecasts.filter (fun f =>
                    decide (startMs - contextHours * oneHourMs ≤ getTimeMs f.date) &&
                      decide (getTimeMs f.date ≤ endMs + contextHours * oneHourMs))
                  ⟨cache, delta1, fetchEvents ++ [RunEvent.matchRec a newWindow],
                    .ok (some ⟨w, startMs, endMs, newWindow, tableForecasts⟩)⟩

/-- The store-independent phase with the per-run forecast memo: skip a
paused rule, read the cache, fetch and fill on a miss. -/
def phase1 (D : CheckRunnerDeps) (a : AlertRule) (cache : ForecastCache) :
    Phase1Out :=
  if a.enabled = some false then ⟨cache, StatsDelta.zero, [], .ok none⟩
  else
    match cacheGet cache a.spotId with
    | some fs => phase1Core D a cache [] (.ok fs)
    | none =>
      match D.fetchForecasts a.spotId with
      | .error e => phase1Core D a cache [RunEvent.fetch a.spotId] (.error e)
      | .ok fs =>
        phase1Core D a (cacheSet cache a.spotId fs) [RunEvent.fetch a.spotId] (.ok fs)

/-- Reference variant without the memo: every rule fetches directly.  Used
to state that the memo is observationally transparent (claim C9). -/
def phase1NoMemo (D : CheckRunnerDeps) (a : AlertRule) (cache : ForecastCache) :
    Phase1Out :=
  if a.enabled = some false then ⟨cache, StatsDelta.zero, [], .ok none⟩
  else
    match D.fetchForecasts a.spotId with
    | .error e => phase1Core D a cache [RunEvent.fetch a.spotId] (.error e)
    | .ok fs => phase1Core D a cache [RunEvent.fetch a.spotId] (.ok fs)

/-- Output of the dedupe/send phase. -/
structure Phase2Out where
  events : List RunEvent
  notifiedDelta : ℕ
  store : WindowStore
  err : Option String
  deriving DecidableEq

/-- The dedupe/send phase: consult `shouldSendWindow` against the stored
window for the rule key; when sending is warranted, fetch the tide events
for the message, build the payload, send, record the new window, touch the
rule and fire the sent hook.  A throw leaves the store unchanged. -/
def phase2 (D : CheckRunnerDeps) (a : AlertRule) (ctx : SendCtx)
    (store : WindowStore) : Phase2Out :=
  let k := dedupeKey a
  let prev := storeGet store k
  if shouldSendWindow prev ctx.newWindow = false then ⟨[], 0, store, none⟩
  else
    match D.getTideEventsForDate (tidePortOf a)
        (D.apiDateFromForecastDate ctx.window.start.forecast.date) with
    | .error e => ⟨[], 0, store, some e⟩
    | .ok tideEvents =>
      let nearestTides := findNearestTides ctx.startMs tideEvents
      let windowForecasts :=
        if ctx.tableForecasts = [] then ctx.window.items.map CandidateMatch.forecast
        else ctx.tableForecasts
      let payload : MessagePayload :=
        ⟨a, ctx.window.start.forecast, ctx.startMs, ctx.endMs, nearestTides,
          windowForecasts⟩
      match D.sendMessage a.chatId payload with
      | .error e => ⟨[RunEvent.send a a.chatId], 0, store, some e⟩
      | .ok _ =>
        ⟨[RunEvent.send a a.chatId, RunEvent.touch a.id D.nowMs,
            RunEvent.sentRec a ctx.newWindow],
          1, storeSet store k ctx.newWindow, none⟩

/-- The store-independent accumulators of a run. -/
structure RunCore where
  cache : ForecastCache
  stats : CheckRunStats
  events : List RunEvent
  deriving DecidableEq

/-- The whole run state: accumulators plus the last-sent-window store that
survives across runs. -/
structure RunSt where
  core : RunCore
  store : WindowStore
  deriving DecidableEq

/-- Apply the phase-one stats increments. -/
def applyDelta (s : CheckRunStats) (d : StatsDelta) : CheckRunStats :=
  { s with
    matched := s.matched + d.matched,
    passAll := s.passAll + d.passAll,
    discardReasons := s.discardReasons.add d.dr }

/-- One rule inside the `try/catch`: run the given store-independent phase,
then the dedupe/send phase; a caught exception increments `errors` and the
loop carries on. -/
def processAlertWith
    (p1 : CheckRunnerDeps → AlertRule → ForecastCache → Phase1Out)
    (D : CheckRunnerDeps) (s : RunSt) (a : AlertRule) : RunSt :=
  let p := p1 D a s.core.cache
  let core1 : RunCore :=
    ⟨p.cache, applyDelta s.core.stats p.delta, s.core.events ++ p.events⟩
  match p.outcome with
  | .error _ =>
    ⟨{ core1 with stats := { core1.stats with errors := core1.stats.errors + 1 } },
      s.store⟩
  | .ok none => ⟨core1, s.store⟩
  | .ok (some ctx) =>
    let q := phase2 D a ctx s.store
    let core2 : RunCore :=
      ⟨core1.cache,
        { core1.stats with notified := core1.stats.notified + q.notifiedDelta },
        core1.events ++ q.events⟩
    match q.err with
    | some _ =>
      ⟨{ core2 with stats := { core2.stats with errors := core2.stats.errors + 1 } },
        q.store⟩
    | none => ⟨core2, q.store⟩

/-- One rule of the memoized runner. -/
def processAlert (D : CheckRunnerDeps) (s : RunSt) (a : AlertRule) : RunSt :=
  processAlertWith phase1 D s a

/-- One rule of the memo-free reference runner. -/
def processAlertNoMemo (D : CheckRunnerDeps) (s : RunSt) (a : AlertRule) : RunSt :=
  processAlertWith phase1NoMemo D s a

/-- The initial statistics of a run (source `stats` literal). -/
def initStats (D : CheckRunnerDeps) : CheckRunStats :=
  ⟨D.alerts.length, 0, 0, 0, 0, firstOccurrences (D.alerts.map AlertRule.spot),
    DiscardReasons.zero⟩

/-- The state a run starts from: fresh cache, fresh stats and event log, and
the given last-sent-window store. -/
def initState (D : CheckRunnerDeps) (store0 : WindowStore) : RunSt :=
  ⟨⟨[], initStats D, []⟩, store0⟩

/-- The rule loop from a given state. -/
def runChecksFrom (D : CheckRunnerDeps) (rules : List AlertRule) (s : RunSt) :
    RunSt :=
  rules.foldl (processAlert D) s

/-- Source `runChecksWithDeps`: one full run over the configured rules,
threading the caller's last-sent-window store. -/
def runChecksWithDeps (D : CheckRunnerDeps) (store0 : WindowStore) : RunSt :=
  runChecksFrom D D.alerts (initState D store0)

/-- The memo-free reference runner. -/
def runChecksNoMemo (D : CheckRunnerDeps) (store0 : WindowStore) : RunSt :=
  D.alerts.foldl (processAlertNoMemo D) (initState D store0)

/-- The spots passed to `fetchForecasts`, in call order. -/
def fetchLog (evs : List RunEvent) : List (Option String) :=
  evs.filterMap (fun e =>
    match e with
    | RunEvent.fetch sp => some sp
    | _ => none)

/-- The event log without the fetch events. -/
def nonFetchEvents (evs : List RunEvent) : List RunEvent :=
  evs.filter (fun e =>
    match e with
    | RunEvent.fetch _ => false
    | _ => true)

/-- Number of match-record hook firings attributed to a rule. -/
def countMatchRec (r : AlertRule) (evs : List RunEvent) : ℕ :=
  evs.countP (fun e =>
    match e with
    | RunEvent.matchRec a _ => decide (a = r)
    | _ => false)

/-- Number of `sendMessage` calls attributed to a rule. -/
def countSend (r : AlertRule) (evs : List RunEvent) : ℕ :=
  evs.countP (fun e =>
    match e with
    | RunEvent.send a _ => decide (a = r)
    | _ => false)

/-- The amended retention condition of claim C4 for a `high`/`low` tide
preference: the sample parses, the tide fetch succeeds, a nearest event of
the matching type exists, its timestamp is nonzero (the source falsy check),
and the sample lies within ±3 hours of it.  No condition on the classified
tide phase appears. -/
def tideGateKeeps (D : CheckRunnerDeps) (a : AlertRule) (ty : TidePref)
    (f : SurfForecast) : Prop :=
  ∃ ts evs nt, f.date = some ts ∧
    D.getTideEventsForDate (tidePortOf a) (D.apiDateFromForecastDate f.date) =
      Except.ok evs ∧
    findNearestTideTsByType ts evs ty = some nt ∧ nt ≠ 0 ∧
    nt - 3 * oneHourMs ≤ ts ∧ ts ≤ nt + 3 * oneHourMs

theorem mem_and_iff_cons {g f : SurfForecast} {rest : List SurfForecast}
    {K : SurfForecast → Prop} (hK : ¬K g) :
    (f ∈ rest ∧ K f) ↔ (f ∈ g :: rest ∧ K f) := by
  constructor
  · rintro ⟨hm, hk⟩; exact ⟨List.mem_cons_of_mem g hm, hk⟩
  · rintro ⟨hm, hk⟩
    rcases List.mem_cons.mp hm with rfl | hm2
    · exact absurd hk hK
    · exact ⟨hm2, hk⟩

/-- C4 (amended): for a rule whose tide preference is `high` or `low`, a
matched sample is retained as a `CandidateMatch` exactly when its date
parses, the tide fetch for its day succeeds, a nearest tide event of the
matching type (pleamar for high, bajamar for low) exists with a nonzero
timestamp, and the sample lies within ±3 hours of it.  The classified tide
phase is never consulted; the nonzero-timestamp condition is forced by the
source falsy check `!nearestTide`, see `C4_counterexample`. -/
theorem C4_tide_gate_membership (D : CheckRunnerDeps) (a : AlertRule)
    (ty : TidePref) (hty : ty = TidePref.high ∨ ty = TidePref.low)
    (hpref : a.tidePreference = some ty) :
    ∀ (fs : List SurfForecast) (d : ℕ) (out : List CandidateMatch),
      buildCandidateMatches D a fs = (d, Except.ok out) →
      ∀ f : SurfForecast,
        ((∃ cm ∈ out, cm.forecast = f) ↔ (f ∈ fs ∧ tideGateKeeps D a ty f)) := by
  have hhl : prefHighLow a = some ty := by
    rcases hty with rfl | rfl <;> simp [prefHighLow, hpref]
  intro fs
  induction fs with
  | nil =>
    intro d out h f
    rw [buildCandidateMatches] at h
    simp only [Prod.mk.injEq, Except.ok.injEq] at h
    obtain ⟨rfl, rfl⟩ := h
    simp
  | cons g rest ih =>
    intro d out h f
    rw [buildCandidateMatches] at h
    cases hgd : g.date with
    | none =>
      rw [hgd] at h
      rw [ih d out h f]
      apply mem_and_iff_cons
      rintro ⟨ts, evs, nt, hts, _⟩
      rw [hgd] at hts
      exact Option.noConfusion hts
    | some ts0 =>
      rw [hgd] at h
      cases hge : D.getTideEventsForDate (tidePortOf a)
          (D.apiDateFromForecastDate (some ts0)) with
      | error e =>
        rw [hge] at h
        simp only [Prod.mk.injEq] at h
        exact absurd h.2 (by simp)
      | ok evs =>
        rw [hge, hhl] at h
        dsimp only at h
        have hKstep : ∀ (hblock : ¬tideGateKeeps D a ty g)
            (hrec : buildCandidateMatches D a rest = (d - 1, Except.ok out)),
            (∃ cm ∈ out, cm.forecast = f) ↔ (f ∈ g :: rest ∧ tideGateKeeps D a ty f) := by
          intro hblock hrec
          rw [ih (d - 1) out hrec f]
          exact mem_and_iff_cons hblock
        have hdet : ∀ {ts evs2}, g.date = some ts →
            D.getTideEventsForDate (tidePortOf a) (D.apiDateFromForecastDate g.date) =
              Except.ok evs2 → ts = ts0 ∧ evs2 = evs := by
          intro ts evs2 hts hev
          rw [hgd] at hts hev
          rw [hge] at hev
          exact ⟨(Option.some_inj.mp hts).symm ▸ rfl, (Except.ok.inj hev).symm⟩
        cases hnr : findNearestTideTsByType ts0 evs ty with
        | none =>
          rw [hnr] at h
          dsimp only at h
          obtain ⟨hd, hrec⟩ : d = (buildCandidateMatches D a rest).1 + 1 ∧
              (buildCandidateMatches D a rest).2 = Except.ok out := by
            unfold bcmDiscard at h
            exact ⟨(Prod.mk.injEq _ _ _ _ ▸ h).1.symm, (Prod.mk.injEq _ _ _ _ ▸ h).2⟩
          refine hKstep ?_ ?_
          · rintro ⟨ts, evs2, nt, hts, hev, hnr2, _⟩
            obtain ⟨rfl, rfl⟩ := hdet hts hev
            rw [hnr] at hnr2
            exact Option.noConfusion hnr2
          · rw [Prod.ext_iff]
            exact ⟨by omega, hrec⟩
        | some nt =>
          rw [hnr] at h
          dsimp only at h
          by_cases hz : nt = 0
          · rw [if_pos hz] at h
            obtain ⟨hd, hrec⟩ : d = (buildCandidateMatches D a rest).1 + 1 ∧
                (buildCandidateMatches D a rest).2 = Except.ok out := by
              unfold bcmDiscard at h
              exact ⟨(Prod.mk.injEq _ _ _ _ ▸ h).1.symm, (Prod.mk.injEq _ _ _ _ ▸ h).2⟩
            refine hKstep ?_ ?_
            · rintro ⟨ts, evs2, nt2, hts, hev, hnr2, hnz, _⟩
              obtain ⟨rfl, rfl⟩ := hdet hts hev
              rw [hnr] at hnr2
              exact hnz (Option.some_inj.mp hnr2 ▸ hz)
            · rw [Prod.ext_iff]
              exact ⟨by omega, hrec⟩
          · rw [if_neg hz] at h
            by_cases hout : ts0 < nt - 3 * oneHourMs ∨ ts0 > nt + 3 * oneHourMs
            · rw [if_pos hout] at h
              obtain ⟨hd, hrec⟩ : d = (buildCandidateMatches D a rest).1 + 1 ∧
                  (buildCandidateMatches D a rest).2 = Except.ok out := by
                unfold bcmDiscard at h
                exact ⟨(Prod.mk.injEq _ _ _ _ ▸ h).1.symm, (Prod.mk.injEq _ _ _ _ ▸ h).2⟩
              refine hKstep ?_ ?_
              · rintro ⟨ts, evs2, nt2, hts, hev, hnr2, hnz, hb1, hb2⟩
                obtain ⟨rfl, rfl⟩ := hdet hts hev
                rw [hnr] at hnr2
                obtain rfl : nt = nt2 := Option.some_inj.mp hnr2
                omega
              · rw [Prod.ext_iff]
                exact ⟨by omega, hrec⟩
            · rw [if_neg hout] at h
              have hmidf : ¬(a.tidePreference = some TidePref.mid ∧
                  (tideClassOf ts0 evs).1 ≠ some TidePref.mid) := by
                rcases hty with rfl | rfl <;> simp [hpref]
              unfold bcmKeep at h
              rw [if_neg hmidf] at h
              simp only [Prod.mk.injEq] at h
              obtain ⟨hd, hmap⟩ := h
              obtain ⟨out2, hre, rfl⟩ : ∃ out2,
                  (buildCandidateMatches D a rest).2 = Except.ok out2 ∧
                    out = (⟨g, (tideClassOf ts0 evs).1, (tideClassOf ts0 evs).2⟩ :
                      CandidateMatch) :: out2 := by
                cases hre2 : (buildCandidateMatches D a rest).2 with
                | error e2 => rw [hre2] at hmap; exact absurd hmap (by simp [Except.map])
                | ok out2 =>
                  rw [hre2] at hmap
                  exact ⟨out2, rfl, by
                    have := Except.ok.inj hmap
                    exact this.symm⟩
              have hiff := ih (buildCandidateMatches D a rest).1 out2
                (by rw [Prod.ext_iff]; exact ⟨rfl, hre⟩) f
              constructor
              · rintro ⟨cm, hcm, hcf⟩
                rcases List.mem_cons.mp hcm with rfl | hcm2
                · refine ⟨by rw [← hcf]; exact List.mem_cons_self g rest, ?_⟩
                  rw [← hcf]
                  exact ⟨ts0, evs, nt, hgd, by rw [hgd]; exact hge, hnr, hz, by omega, by omega⟩
                · obtain ⟨hm, hk⟩ := hiff.mp ⟨cm, hcm2, hcf⟩
                  exact ⟨List.mem_cons_of_mem g hm, hk⟩
              · rintro ⟨hm, hk⟩
                rcases List.mem_cons.mp hm with rfl | hm2
                · exact ⟨⟨f, (tideClassOf ts0 evs).1, (tideClassOf ts0 evs).2⟩,
                    List.mem_cons_self _ _, rfl⟩
                · obtain ⟨cm, hcm, hcf⟩ := hiff.mpr ⟨hm2, hk⟩
                  exact ⟨cm, List.mem_cons_of_mem _ hcm, hcf⟩

/-- A high-tide event parsed exactly to the Unix epoch. -/
def c4Event : TideEvent := ⟨some 0, 3.1, needlePleamar⟩

/-- A matched sample at the Unix epoch. -/
def c4Forecast : SurfForecast := ⟨some 0, "sopelana", [], ⟨0, 0⟩, 0⟩

/-- A rule with a high tide preference. -/
def c4Alert : AlertRule :=
  ⟨"a-c4", 1, "c4", "sopelana", some "spot-1", 0, 10, 0, 10, 0, 10,
    none, none, none, none, some TidePref.high, none⟩

/-- Collaborators serving the epoch high-tide day. -/
def c4Deps : CheckRunnerDeps where
  alerts := []
  minConsecutiveHours := 1
  fetchForecasts := fun _ => Except.ok []
  isWithinAlertWindow := fun _ _ => Except.ok true
  getTideEventsForDate := fun _ _ => Except.ok [c4Event]
  apiDateFromForecastDate := fun _ => defaultTidePort
  sendMessage := fun _ _ => Except.ok ()
  nowMs := 0

/-- C4 counterexample: with a high preference, a pleamar event exists for
the day (the nearest one, at timestamp 0) and the sample lies within ±3
hours of it, yet the source discards the sample (`tide` discard 1, empty
candidate list) because the falsy check `!nearestTide` treats the epoch
timestamp 0 as absent.  This refutes the claim that the sample is retained
exactly when a matching-type event exists within ±3 hours. -/
theorem C4_counterexample :
    c4Alert.tidePreference = some TidePref.high ∧
    findNearestTideTsByType 0 [c4Event] TidePref.high = some 0 ∧
    ((0 : ℤ) - 3 * oneHourMs ≤ 0 ∧ (0 : ℤ) ≤ 0 + 3 * oneHourMs) ∧
    buildCandidateMatches c4Deps c4Alert [c4Forecast] = (1, Except.ok []) := by
  refine ⟨rfl, ?_, ⟨by decide, by decide⟩, ?_⟩
  · with_unfolding_all decide
  · with_unfolding_all rfl

/-- A high-tide event at noon. -/
def c4bEvent : TideEvent := ⟨some 43200000, 3.1, needlePleamar⟩

/-- A matched sample half an hour after the event. -/
def c4bForecast : SurfForecast := ⟨some 45000000, "sopelana", [], ⟨0, 0⟩, 0⟩

/-- Collaborators serving the noon high-tide day. -/
def c4bDeps : CheckRunnerDeps where
  alerts := []
  minConsecutiveHours := 1
  fetchForecasts := fun _ => Except.ok []
  isWithinAlertWindow := fun _ _ => Except.ok true
  getTideEventsForDate := fun _ _ => Except.ok [c4bEvent]
  apiDateFromForecastDate := fun _ => defaultTidePort
  sendMessage := fun _ _ => Except.ok ()
  nowMs := 0

/-- C4 witness: the amended theorem applied to a concrete in-window sample.
The sample is retained although its classified tide phase is `mid`, not
`high` — the proximity window never consults the classification. -/
theorem C4_witness :
    buildCandidateMatches c4bDeps c4Alert [c4bForecast] =
      (0, Except.ok [⟨c4bForecast, some TidePref.mid, some 3.1⟩]) ∧
    ((∃ cm ∈ [(⟨c4bForecast, some TidePref.mid, some 3.1⟩ : CandidateMatch)],
        cm.forecast = c4bForecast) ↔
      (c4bForecast ∈ [c4bForecast] ∧ tideGateKeeps c4bDeps c4Alert TidePref.high c4bForecast)) := by
  constructor
  · with_unfolding_all rfl
  · exact C4_tide_gate_membership c4bDeps c4Alert TidePref.high (Or.inl rfl) rfl
      [c4bForecast] 0 [⟨c4bForecast, some TidePref.mid, some 3.1⟩]
      (by with_unfolding_all rfl) c4bForecast

/-- Whether the `try/catch` of the rule loop catches an exception for this
rule from this state. -/
def ruleCaught (D : CheckRunnerDeps) (a : AlertRule) (s : RunSt) : Bool :=
  match (phase1 D a s.core.cache).outcome with
  | .error _ => true
  | .ok none => false
  | .ok (some ctx) => (phase2 D a ctx s.store).err.isSome

theorem applyDelta_errors (s : CheckRunStats) (d : StatsDelta) :
    (applyDelta s d).errors = s.errors := rfl

/-- C8: a rule whose evaluation throws anywhere (a failing fetch, daylight
lookup, tide lookup or send) is caught at the rule boundary: the loop
continues with the remaining rules unchanged (first conjunct, which also
shows the run always returns its statistics normally), and the `errors`
statistic grows by exactly one for the caught rule and is untouched
otherwise. -/
theorem C8_per_rule_error_isolation (D : CheckRunnerDeps) (s : RunSt)
    (a : AlertRule) (rest : List AlertRule) :
    runChecksFrom D (a :: rest) s = runChecksFrom D rest (processAlert D s a) ∧
    (ruleCaught D a s = true →
      (processAlert D s a).core.stats.errors = s.core.stats.errors + 1) ∧
    (ruleCaught D a s = false →
      (processAlert D s a).core.stats.errors = s.core.stats.errors) := by
  refine ⟨rfl, ?_, ?_⟩
  · intro hc
    unfold ruleCaught at hc
    unfold processAlert processAlertWith
    cases hout : (phase1 D a s.core.cache).outcome with
    | error e => simp [hout, applyDelta_errors]
    | ok o =>
      cases o with
      | none => rw [hout] at hc; exact absurd hc (by simp)
      | some ctx =>
        rw [hout] at hc
        simp only at hc
        cases herr : (phase2 D a ctx s.store).err with
        | none => rw [herr] at hc; exact absurd hc (by simp)
        | some e => simp [hout, herr, applyDelta_errors]
  · intro hc
    unfold ruleCaught at hc
    unfold processAlert processAlertWith
    cases hout : (phase1 D a s.core.cache).outcome with
    | error e => rw [hout] at hc; exact absurd hc (by simp)
    | ok o =>
      cases o with
      | none => simp [hout, applyDelta_errors]
      | some ctx =>
        rw [hout] at hc
        simp only at hc
        cases herr : (phase2 D a ctx s.store).err with
        | none => simp [hout, herr, applyDelta_errors]
        | some e => rw [herr] at hc; exact absurd hc (by simp)

/-- A trivially matching sample for the error-isolation scenario. -/
def c8Forecast : SurfForecast := ⟨some 0, "sopelana", [], ⟨0, 0⟩, 0⟩

/-- A rule whose chat the sender rejects. -/
def c8Rule1 : AlertRule :=
  ⟨"r1", 1, "n1", "sopelana", some "s1", 0, 10, 0, 10, 0, 10,
    none, none, none, none, none, none⟩

/-- A rule whose chat the sender accepts. -/
def c8Rule2 : AlertRule :=
  ⟨"r2", 2, "n2", "sopelana", some "s1", 0, 10, 0, 10, 0, 10,
    none, none, none, none, none, none⟩

/-- Collaborators whose `sendMessage` throws for chat 1 only. -/
def c8Deps : CheckRunnerDeps where
  alerts := [c8Rule1, c8Rule2]
  minConsecutiveHours := 1
  fetchForecasts := fun _ => Except.ok [c8Forecast]
  isWithinAlertWindow := fun _ _ => Except.ok true
  getTideEventsForDate := fun _ _ => Except.ok []
  apiDateFromForecastDate := fun _ => defaultTidePort
  sendMessage := fun c _ => if c = 1 then Except.error "boom" else Except.ok ()
  nowMs := 0

/-- C8 witness: the theorem applied to a run whose first rule fails in
`sendMessage`; the exception is caught, `errors` becomes one and the loop
carries on with the second rule. -/
theorem C8_witness :
    ruleCaught c8Deps c8Rule1 (initState c8Deps []) = true ∧
    runChecksFrom c8Deps [c8Rule1, c8Rule2] (initState c8Deps []) =
      runChecksFrom c8Deps [c8Rule2]
        (processAlert c8Deps (initState c8Deps []) c8Rule1) ∧
    (processAlert c8Deps (initState c8Deps []) c8Rule1).core.stats.errors =
      (initState c8Deps []).core.stats.errors + 1 := by
  refine ⟨by with_unfolding_all decide, ?_, ?_⟩
  · exact (C8_per_rule_error_isolation c8Deps (initState c8Deps []) c8Rule1 [c8Rule2]).1
  · exact (C8_per_rule_error_isolation c8Deps (initState c8Deps []) c8Rule1 [c8Rule2]).2.1
      (by with_unfolding_all decide)

example :
    (runChecksWithDeps c8Deps []).core.stats.errors = 1 ∧
    (runChecksWithDeps c8Deps []).core.stats.notified = 1 ∧
    (runChecksWithDeps c8Deps []).core.stats.matched = 2 := by
  with_unfolding_all decide

theorem mem_firstOccurrencesAux {α : Type} [DecidableEq α] (x : α) :
    ∀ (l seen : List α), x ∈ firstOccurrencesAux seen l ↔ (x ∈ l ∧ x ∉ seen) := by
  intro l
  induction l with
  | nil => intro seen; simp [firstOccurrencesAux]
  | cons a t ih =>
    intro seen
    unfold firstOccurrencesAux
    by_cases ha : a ∈ seen
    · rw [if_pos ha, ih]
      constructor
      · rintro ⟨h1, h2⟩; exact ⟨List.mem_cons_of_mem a h1, h2⟩
      · rintro ⟨h1, h2⟩
        rcases List.mem_cons.mp h1 with rfl | h3
        · exact absurd ha h2
        · exact ⟨h3, h2⟩
    · rw [if_neg ha]
      rw [List.mem_cons, ih]
      constructor
      · rintro (rfl | ⟨h1, h2⟩)
        · exact ⟨List.mem_cons_self x t, ha⟩
        · refine ⟨List.mem_cons_of_mem a h1, fun hc => h2 (List.mem_cons_of_mem a hc)⟩
      · rintro ⟨h1, h2⟩
        rcases List.mem_cons.mp h1 with rfl | h3
        · exact Or.inl rfl
        · by_cases hxa : x = a
          · exact Or.inl hxa
          · exact Or.inr ⟨h3, by simp [hxa, h2]⟩

theorem nodup_firstOccurrencesAux {α : Type} [DecidableEq α] :
    ∀ (l seen : List α), (firstOccurrencesAux seen l).Nodup := by
  intro l
  induction l with
  | nil => intro seen; simp [firstOccurrencesAux]
  | cons a t ih =>
    intro seen
    unfold firstOccurrencesAux
    by_cases ha : a ∈ seen
    · rw [if_pos ha]; exact ih seen
    · rw [if_neg ha]
      refine List.Nodup.cons ?_ (ih (a :: seen))
      intro hc
      have := (mem_firstOccurrencesAux a t (a :: seen)).mp hc
      exact this.2 (List.mem_cons_self a seen)

theorem firstOccurrencesAux_snoc {α : Type} [DecidableEq α] (a : α) :
    ∀ (l seen : List α),
      firstOccurrencesAux seen (l ++ [a]) =
        if a ∈ seen ∨ a ∈ l then firstOccurrencesAux seen l
        else firstOccurrencesAux seen l ++ [a] := by
  intro l
  induction l with
  | nil =>
    intro seen
    by_cases ha : a ∈ seen <;> simp [firstOccurrencesAux, ha]
  | cons b t ih =>
    intro seen
    simp only [List.cons_append]
    unfold firstOccurrencesAux
    by_cases hb : b ∈ seen
    · rw [if_pos hb, if_pos hb, ih seen]
      have hiff : (a ∈ seen ∨ a ∈ t) ↔ (a ∈ seen ∨ a ∈ b :: t) := by
        constructor
        · rintro (h | h)
          · exact Or.inl h
          · exact Or.inr (List.mem_cons_of_mem b h)
        · rintro (h | h)
          · exact Or.inl h
          · rcases List.mem_cons.mp h with rfl | h2
            · exact Or.inl hb
            · exact Or.inr h2
      by_cases hc : a ∈ seen ∨ a ∈ t
      · rw [if_pos hc, if_pos (hiff.mp hc)]
      · rw [if_neg hc, if_neg (fun hx => hc (hiff.mpr hx))]
    · rw [if_neg hb, if_neg hb, ih (b :: seen)]
      have hiff : (a ∈ b :: seen ∨ a ∈ t) ↔ (a ∈ seen ∨ a ∈ b :: t) := by
        constructor
        · rintro (h | h)
          · rcases List.mem_cons.mp h with rfl | h2
            · exact Or.inr (List.mem_cons_self a t)
            · exact Or.inl h2
          · exact Or.inr (List.mem_cons_of_mem b h)
        · rintro (h | h)
          · exact Or.inl (List.mem_cons_of_mem b h)
          · rcases List.mem_cons.mp h with rfl | h2
            · exact Or.inl (List.mem_cons_self a seen)
            · exact Or.inr h2
      by_cases hc : a ∈ b :: seen ∨ a ∈ t
      · rw [if_pos hc, if_pos (hiff.mp hc)]
      · rw [if_neg hc, if_neg (fun hx => hc (hiff.mpr hx))]
        simp

theorem mem_firstOccurrences {α : Type} [DecidableEq α] (x : α) (l : List α) :
    x ∈ firstOccurrences l ↔ x ∈ l := by
  unfold firstOccurrences
  rw [mem_firstOccurrencesAux]
  simp

theorem nodup_firstOccurrences {α : Type} [DecidableEq α] (l : List α) :
    (firstOccurrences l).Nodup := nodup_firstOccurrencesAux l []

theorem firstOccurrences_snoc_mem {α : Type} [DecidableEq α] (a : α) (l : List α)
    (h : a ∈ l) : firstOccurrences (l ++ [a]) = firstOccurrences l := by
  unfold firstOccurrences
  rw [firstOccurrencesAux_snoc]
  rw [if_pos (Or.inr h)]

theorem firstOccurrences_snoc_not_mem {α : Type} [DecidableEq α] (a : α)
    (l : List α) (h : a ∉ l) :
    firstOccurrences (l ++ [a]) = firstOccurrences l ++ [a] := by
  unfold firstOccurrences
  rw [firstOccurrencesAux_snoc]
  rw [if_neg (by simp [h])]

theorem cacheGet_set (c : ForecastCache) (k k2 : Option String)
    (v : List SurfForecast) :
    cacheGet (cacheSet c k v) k2 = if k2 = k then some v else cacheGet c k2 := by
  by_cases h : k2 = k
  · simp [cacheGet, cacheSet, List.lookup, h]
  · have hb : (k2 == k) = false := by simpa using h
    simp [cacheGet, cacheSet, List.lookup, hb, h]

theorem storeGet_set (s : WindowStore) (k k2 : DedupKey) (w : AlertWindow) :
    storeGet (storeSet s k w) k2 = if k2 = k then some w else storeGet s k2 := by
  by_cases h : k2 = k
  · simp [storeGet, storeSet, List.lookup, h]
  · have hb : (k2 == k) = false := by simpa using h
    simp [storeGet, storeSet, List.lookup, hb, h]

theorem fetchLog_append (l m : List RunEvent) :
    fetchLog (l ++ m) = fetchLog l ++ fetchLog m := by
  unfold fetchLog
  exact List.filterMap_append l m _

theorem nonFetchEvents_append (l m : List RunEvent) :
    nonFetchEvents (l ++ m) = nonFetchEvents l ++ nonFetchEvents m := by
  simp [nonFetchEvents]

/-- The structure of the phase-one tail: cache and fetch events are carried
unchanged, the rest depends only on the rule and the fetched forecasts. -/
theorem phase1Core_spec (D : CheckRunnerDeps) (a : AlertRule)
    (c : ForecastCache) (fe : List RunEvent)
    (fE : Except String (List SurfForecast)) :
    (phase1Core D a c fe fE).cache = c ∧
    (phase1Core D a c fe fE).delta = (phase1Core D a [] [] fE).delta ∧
    (phase1Core D a c fe fE).events = fe ++ (phase1Core D a [] [] fE).events ∧
    (phase1Core D a c fe fE).outcome = (phase1Core D a [] [] fE).outcome := by
  unfold phase1Core
  cases fE with
  | error e => simp
  | ok forecasts =>
    dsimp only
    by_cases hemp : forecasts = []
    · simp [hemp]
    · rw [if_neg hemp, if_neg hemp]
      rcases hlm : lightAndMatch D a forecasts with ⟨mf, pd, dr, errL⟩
      dsimp only
      cases errL with
      | some e => simp
      | none =>
        dsimp only
        by_cases hmf : mf = []
        · simp [hmf]
        · rw [if_neg hmf, if_neg hmf]
          cases hbc : (buildCandidateMatches D a mf).2 with
          | error e => simp
          | ok candidates =>
            dsimp only
            by_cases hcd : candidates = []
            · simp [hcd]
            · rw [if_neg hcd, if_neg hcd]
              cases hw : firstConsecutiveWindow candidates
                  (max 1 D.minConsecutiveHours) with
              | none => simp
              | some w => simp

/-- Phase one from empty fetch events produces no fetch events of its
own. -/
theorem phase1Core_fetchLog (D : CheckRunnerDeps) (a : AlertRule)
    (fE : Except String (List SurfForecast)) :
    fetchLog (phase1Core D a [] [] fE).events = [] := by
  unfold phase1Core
  cases fE with
  | error e => rfl
  | ok forecasts =>
    dsimp only
    by_cases hemp : forecasts = []
    · simp [hemp]; rfl
    · rw [if_neg hemp]
      rcases hlm : lightAndMatch D a forecasts with ⟨mf, pd, dr, errL⟩
      dsimp only
      cases errL with
      | some e => rfl
      | none =>
        dsimp only
        by_cases hmf : mf = []
        · simp [hmf]; rfl
        · rw [if_neg hmf]
          cases hbc : (buildCandidateMatches D a mf).2 with
          | error e => rfl
          | ok candidates =>
            dsimp only
            by_cases hcd : candidates = []
            · simp [hcd]; rfl
            · rw [if_neg hcd]
              cases hw : firstConsecutiveWindow candidates
                  (max 1 D.minConsecutiveHours) with
              | none => rfl
              | some w => rfl

/-- Phase two produces no fetch events. -/
theorem phase2_fetchLog (D : CheckRunnerDeps) (a : AlertRule) (ctx : SendCtx)
    (store : WindowStore) : fetchLog (phase2 D a ctx store).events = [] := by
  unfold phase2
  dsimp only
  by_cases hs : shouldSendWindow (storeGet store (dedupeKey a)) ctx.newWindow = false
  · rw [if_pos hs]; rfl
  · rw [if_neg hs]
    cases hg : D.getTideEventsForDate (tidePortOf a)
        (D.apiDateFromForecastDate ctx.window.start.forecast.date) with
    | error e => rfl
    | ok tideEvents =>
      dsimp only
      split
      · rfl
      · rfl

/-- Success test for a collaborator result. -/
def exceptOk {α : Type} (e : Except String α) : Bool :=
  match e with
  | .ok _ => true
  | .error _ => false

theorem phase1Core_eq (D : CheckRunnerDeps) (a : AlertRule) (c : ForecastCache)
    (fe : List RunEvent) (fE : Except String (List SurfForecast)) :
    phase1Core D a c fe fE =
      ⟨c, (phase1Core D a [] [] fE).delta, fe ++ (phase1Core D a [] [] fE).events,
        (phase1Core D a [] [] fE).outcome⟩ := by
  obtain ⟨h1, h2, h3, h4⟩ := phase1Core_spec D a c fe fE
  cases hp : phase1Core D a c fe fE with
  | mk c2 d2 e2 o2 =>
    rw [hp] at h1 h2 h3 h4
    simp only at h1 h2 h3 h4
    rw [h1, h2, h3, h4]

/-- The coupling between the memoized run and the memo-free reference run:
equal stores, stats and non-fetch events; the memoized fetch log is the
first-occurrence deduplication of the reference log; the cache holds true
fetch results and its domain is exactly the set of spots fetched so far. -/
def MemoInv (D : CheckRunnerDeps) (sm sn : RunSt) : Prop :=
  sm.store = sn.store ∧
  sm.core.stats = sn.core.stats ∧
  nonFetchEvents sm.core.events = nonFetchEvents sn.core.events ∧
  fetchLog sm.core.events = firstOccurrences (fetchLog sn.core.events) ∧
  (∀ sp fs, cacheGet sm.core.cache sp = some fs →
    D.fetchForecasts sp = Except.ok fs) ∧
  (∀ sp, (cacheGet sm.core.cache sp).isSome = true ↔ sp ∈ fetchLog sm.core.events)

theorem memoInv_assemble (D : CheckRunnerDeps) (a : AlertRule) (sm sn : RunSt)
    (fs : List SurfForecast) (cm2 : ForecastCache) (fem fen : List RunEvent)
    (hm : phase1 D a sm.core.cache = phase1Core D a cm2 fem (Except.ok fs))
    (hn : phase1NoMemo D a sn.core.cache =
      phase1Core D a sn.core.cache fen (Except.ok fs))
    (hst : sm.store = sn.store)
    (hstats : sm.core.stats = sn.core.stats)
    (hnf : nonFetchEvents sm.core.events = nonFetchEvents sn.core.events)
    (hfem_nf : nonFetchEvents fem = [])
    (hfen_nf : nonFetchEvents fen = [])
    (hflrel : fetchLog (sm.core.events ++ fem) =
      firstOccurrences (fetchLog (sn.core.events ++ fen)))
    (hcorr2 : ∀ sp fs2, cacheGet cm2 sp = some fs2 →
      D.fetchForecasts sp = Except.ok fs2)
    (hdom2 : ∀ sp, (cacheGet cm2 sp).isSome = true ↔
      sp ∈ fetchLog (sm.core.events ++ fem)) :
    MemoInv D (processAlert D sm a) (processAlertNoMemo D sn a) := by
  have hPfl := phase1Core_fetchLog D a (Except.ok fs)
  simp only [fetchLog_append] at hflrel
  unfold MemoInv processAlert processAlertNoMemo processAlertWith
  rw [hm, hn, phase1Core_eq D a cm2 fem, phase1Core_eq D a sn.core.cache fen]
  dsimp only
  cases hout : (phase1Core D a [] [] (Except.ok fs)).outcome with
  | error e =>
    dsimp only
    refine ⟨hst, by rw [hstats], ?_, ?_, hcorr2, ?_⟩
    · simp only [nonFetchEvents_append, hfem_nf, hfen_nf, List.append_nil,
        List.nil_append, hnf]
    · simp only [fetchLog_append, hPfl, List.append_nil, List.nil_append, hflrel]
    · intro sp
      have h := hdom2 sp
      simp only [fetchLog_append] at h
      simp only [fetchLog_append, hPfl, List.append_nil, List.nil_append]
      exact h
  | ok o =>
    cases o with
    | none =>
      dsimp only
      refine ⟨hst, by rw [hstats], ?_, ?_, hcorr2, ?_⟩
      · simp only [nonFetchEvents_append, hfem_nf, hfen_nf, List.append_nil,
          List.nil_append, hnf]
      · simp only [fetchLog_append, hPfl, List.append_nil, List.nil_append, hflrel]
      · intro sp
        have h := hdom2 sp
        simp only [fetchLog_append] at h
        simp only [fetchLog_append, hPfl, List.append_nil, List.nil_append]
        exact h
    | some ctx =>
      dsimp only
      rw [hst]
      have hq2fl := phase2_fetchLog D a ctx sn.store
      cases hqerr : (phase2 D a ctx sn.store).err with
      | some e =>
        dsimp only
        refine ⟨rfl, by rw [hstats], ?_, ?_, hcorr2, ?_⟩
        · simp only [nonFetchEvents_append, hfem_nf, hfen_nf, List.append_nil,
            List.nil_append, hnf]
        · simp only [fetchLog_append, hPfl, hq2fl, List.append_nil,
            List.nil_append, hflrel]
        · intro sp
          have h := hdom2 sp
          simp only [fetchLog_append] at h
          simp only [fetchLog_append, hPfl, hq2fl, List.append_nil, List.nil_append]
          exact h
      | none =>
        dsimp only
        refine ⟨rfl, by rw [hstats], ?_, ?_, hcorr2, ?_⟩
        · simp only [nonFetchEvents_append, hfem_nf, hfen_nf, List.append_nil,
            List.nil_append, hnf]
        · simp only [fetchLog_append, hPfl, hq2fl, List.append_nil,
            List.nil_append, hflrel]
        · intro sp
          have h := hdom2 sp
          simp only [fetchLog_append] at h
          simp only [fetchLog_append, hPfl, hq2fl, List.append_nil, List.nil_append]
          exact h

theorem memoInv_step (D : CheckRunnerDeps)
    (hfetch : ∀ sp, exceptOk (D.fetchForecasts sp) = true)
    (a : AlertRule) (sm sn : RunSt) (h : MemoInv D sm sn) :
    MemoInv D (processAlert D sm a) (processAlertNoMemo D sn a) := by
  obtain ⟨hst, hstats, hnf, hfl, hcorr, hdom⟩ := h
  by_cases hen : a.enabled = some false
  · unfold MemoInv processAlert processAlertNoMemo processAlertWith phase1 phase1NoMemo
    rw [if_pos hen, if_pos hen]
    dsimp only
    refine ⟨hst, by rw [hstats], ?_, ?_, hcorr, ?_⟩
    · simp only [List.append_nil, hnf]
    · simp only [List.append_nil, hfl]
    · intro sp
      simpa only [List.append_nil] using hdom sp
  · cases hcg : cacheGet sm.core.cache a.spotId with
    | some fs =>
      have hfok : D.fetchForecasts a.spotId = Except.ok fs := hcorr _ _ hcg
      have hmem_m : a.spotId ∈ fetchLog sm.core.events := by
        refine (hdom a.spotId).mp ?_
        rw [hcg]
        rfl
      have hmem_n : a.spotId ∈ fetchLog sn.core.events := by
        rw [hfl] at hmem_m
        exact (mem_firstOccurrences _ _).mp hmem_m
      refine memoInv_assemble D a sm sn fs sm.core.cache [] [RunEvent.fetch a.spotId]
        ?_ ?_ hst hstats hnf rfl rfl ?_ hcorr ?_
      · unfold phase1
        rw [if_neg hen, hcg]
      · unfold phase1NoMemo
        rw [if_neg hen, hfok]
      · rw [List.append_nil, fetchLog_append]
        have h1 : fetchLog [RunEvent.fetch a.spotId] = [a.spotId] := rfl
        rw [h1, firstOccurrences_snoc_mem _ _ hmem_n, hfl]
      · intro sp
        rw [List.append_nil]
        exact hdom sp
    | none =>
      have hnotm : a.spotId ∉ fetchLog sm.core.events := by
        intro hc
        have h2 := (hdom a.spotId).mpr hc
        rw [hcg] at h2
        simp at h2
      have hnotn : a.spotId ∉ fetchLog sn.core.events := by
        intro hc
        exact hnotm (by rw [hfl]; exact (mem_firstOccurrences _ _).mpr hc)
      cases hfr : D.fetchForecasts a.spotId with
      | error e =>
        have h2 := hfetch a.spotId
        rw [hfr] at h2
        simp [exceptOk] at h2
      | ok fs =>
        refine memoInv_assemble D a sm sn fs (cacheSet sm.core.cache a.spotId fs)
          [RunEvent.fetch a.spotId] [RunEvent.fetch a.spotId]
          ?_ ?_ hst hstats hnf rfl rfl ?_ ?_ ?_
        · unfold phase1
          rw [if_neg hen, hcg, hfr]
        · unfold phase1NoMemo
          rw [if_neg hen, hfr]
        · rw [fetchLog_append, fetchLog_append]
          have h1 : fetchLog [RunEvent.fetch a.spotId] = [a.spotId] := rfl
          rw [h1, firstOccurrences_snoc_not_mem _ _ hnotn, hfl]
        · intro sp fs2 hget
          rw [cacheGet_set] at hget
          by_cases hsp : sp = a.spotId
          · rw [if_pos hsp] at hget
            have h2 := Option.some.inj hget
            rw [hsp, hfr, h2]
          · rw [if_neg hsp] at hget
            exact hcorr sp fs2 hget
        · intro sp
          rw [cacheGet_set, fetchLog_append]
          have h1 : fetchLog [RunEvent.fetch a.spotId] = [a.spotId] := rfl
          rw [h1]
          by_cases hsp : sp = a.spotId
          · rw [if_pos hsp]
            simp [hsp]
          · rw [if_neg hsp, List.mem_append]
            constructor
            · intro hs
              exact Or.inl ((hdom sp).mp hs)
            · rintro (hs | hs)
              · exact (hdom sp).mpr hs
              · exact absurd (List.mem_singleton.mp hs) hsp

theorem memoInv_foldl (D : CheckRunnerDeps)
    (hfetch : ∀ sp, exceptOk (D.fetchForecasts sp) = true)
    (rules : List AlertRule) :
    ∀ (sm sn : RunSt), MemoInv D sm sn →
      MemoInv D (rules.foldl (processAlert D) sm)
        (rules.foldl (processAlertNoMemo D) sn) := by
  induction rules with
  | nil => intro sm sn h; exact h
  | cons a rest ih =>
    intro sm sn h
    exact ih _ _ (memoInv_step D hfetch a sm sn h)

theorem memoInv_init (D : CheckRunnerDeps) (store0 : WindowStore) :
    MemoInv D (initState D store0) (initState D store0) := by
  refine ⟨rfl, rfl, rfl, rfl, ?_, ?_⟩
  · intro sp fs h
    simp [initState, cacheGet] at h
  · intro sp
    simp [initState, cacheGet, fetchLog]

/-- C9: within one `runChecksWithDeps` run, `fetchForecasts` is called at
most once per distinct spot (the fetch log of the run has no duplicates),
the spots fetched are exactly the first occurrences of the spots the
memo-free runner would fetch rule by rule, and the memo is observationally
transparent: the run produces the same final window store, the same
statistics and the same non-fetch event log (match records, sends, touches,
sent records — so each rule is evaluated against the series fetched for its
own spot) as the reference runner in which every enabled rule fetches
directly.  Stated under the spec contract that `fetchForecasts` never
throws. -/
theorem C9_fetch_memoization (D : CheckRunnerDeps) (store0 : WindowStore)
    (hfetch : ∀ sp, exceptOk (D.fetchForecasts sp) = true) :
    (fetchLog (runChecksWithDeps D store0).core.events).Nodup ∧
    fetchLog (runChecksWithDeps D store0).core.events =
      firstOccurrences (fetchLog (runChecksNoMemo D store0).core.events) ∧
    (runChecksWithDeps D store0).store = (runChecksNoMemo D store0).store ∧
    (runChecksWithDeps D store0).core.stats =
      (runChecksNoMemo D store0).core.stats ∧
    nonFetchEvents (runChecksWithDeps D store0).core.events =
      nonFetchEvents (runChecksNoMemo D store0).core.events := by
  have h := memoInv_foldl D hfetch D.alerts (initState D store0)
    (initState D store0) (memoInv_init D store0)
  obtain ⟨hst, hstats, hnf, hfl, _, _⟩ := h
  have hrw : runChecksWithDeps D store0 =
      D.alerts.foldl (processAlert D) (initState D store0) := rfl
  have hrn : runChecksNoMemo D store0 =
      D.alerts.foldl (processAlertNoMemo D) (initState D store0) := rfl
  rw [hrw, hrn]
  exact ⟨hfl ▸ nodup_firstOccurrences _, hfl, hst, hstats, hnf⟩

/-- C9 witness: concrete collaborators with two enabled rules sharing spot
`s1`; the memoized run fetches the spot once while the reference run
fetches it twice, and stores, stats and non-fetch events agree. -/
theorem C9_witness :
    (∀ sp, exceptOk (c8Deps.fetchForecasts sp) = true) ∧
    ((fetchLog (runChecksWithDeps c8Deps []).core.events).Nodup ∧
      fetchLog (runChecksWithDeps c8Deps []).core.events =
        firstOccurrences (fetchLog (runChecksNoMemo c8Deps []).core.events) ∧
      (runChecksWithDeps c8Deps []).store = (runChecksNoMemo c8Deps []).store ∧
      (runChecksWithDeps c8Deps []).core.stats =
        (runChecksNoMemo c8Deps []).core.stats ∧
      nonFetchEvents (runChecksWithDeps c8Deps []).core.events =
        nonFetchEvents (runChecksNoMemo c8Deps []).core.events) :=
  ⟨fun _ => rfl, C9_fetch_memoization c8Deps [] (fun _ => rfl)⟩

example :
    fetchLog (runChecksWithDeps c8Deps []).core.events = [some "s1"] ∧
    fetchLog (runChecksNoMemo c8Deps []).core.events =
      [some "s1", some "s1"] := by
  with_unfolding_all decide

/-- A rule matching the early sample only (legacy period bound 0–6).  Its
dedupe key ignores the legacy `periodMin`/`periodMax` scalars. -/
def c5RuleA : AlertRule :=
  ⟨"a", 1, "A", "sopelana", some "s1", 0, 10, 0, 10, 0, 6,
    none, none, none, none, none, none⟩

/-- A rule matching the late sample only (legacy period bound 7–10); it
shares chat, spot, ranges, energy interval and tide profile with `c5RuleA`,
hence the same dedupe key. -/
def c5RuleB : AlertRule :=
  ⟨"b", 1, "B", "sopelana", some "s1", 0, 10, 0, 10, 7, 10,
    none, none, none, none, none, none⟩

/-- Sample at the epoch hour with primary period 5. -/
def c5F0 : SurfForecast := ⟨some 0, "sopelana", [⟨5, 0, 1⟩], ⟨0, 0⟩, 0⟩

/-- Sample two hours later with primary period 8. -/
def c5F2 : SurfForecast := ⟨some 7200000, "sopelana", [⟨8, 0, 1⟩], ⟨0, 0⟩, 0⟩

/-- Collaborators for the dedupe-collision scenario: both rules enabled,
every collaborator succeeds, sends never fail. -/
def c5Deps : CheckRunnerDeps where
  alerts := [c5RuleA, c5RuleB]
  minConsecutiveHours := 1
  fetchForecasts := fun _ => Except.ok [c5F0, c5F2]
  isWithinAlertWindow := fun _ _ => Except.ok true
  getTideEventsForDate := fun _ _ => Except.ok []
  apiDateFromForecastDate := fun _ => defaultTidePort
  sendMessage := fun _ _ => Except.ok ()
  nowMs := 0

/-- C5 counterexample: two enabled rules share a dedupe key (their legacy
period scalars differ but the key only hashes the range/energy/tide
profile) and detect disjoint windows.  Rule B overwrites the stored window
of the shared key, so in the second run rule A's unchanged window is no
longer covered and is sent again: the match hook fires for A in both runs,
no send fails, yet the second run performs a send for A, contradicting the
claimed at-most-one notification across the two runs. -/
theorem C5_counterexample :
    (∀ c p, exceptOk (c5Deps.sendMessage c p) = true) ∧
    countMatchRec c5RuleA (runChecksWithDeps c5Deps []).core.events = 1 ∧
    countMatchRec c5RuleA
      (runChecksWithDeps c5Deps (runChecksWithDeps c5Deps []).store).core.events = 1 ∧
    countSend c5RuleA (runChecksWithDeps c5Deps []).core.events = 1 ∧
    countSend c5RuleA
      (runChecksWithDeps c5Deps (runChecksWithDeps c5Deps []).store).core.events = 1 := by
  refine ⟨fun _ _ => rfl, ?_, ?_, ?_, ?_⟩ <;> with_unfolding_all decide

theorem countSend_append (r : AlertRule) (l m : List RunEvent) :
    countSend r (l ++ m) = countSend r l + countSend r m := by
  simp [countSend, List.countP_append]

theorem phase1Core_sendFree (r : AlertRule) (D : CheckRunnerDeps)
    (a : AlertRule) (fE : Except String (List SurfForecast)) :
    countSend r (phase1Core D a [] [] fE).events = 0 := by
  unfold phase1Core
  cases fE with
  | error e => rfl
  | ok forecasts =>
    dsimp only
    by_cases hemp : forecasts = []
    · simp [hemp]; rfl
    · rw [if_neg hemp]
      rcases hlm : lightAndMatch D a forecasts with ⟨mf, pd, dr, errL⟩
      dsimp only
      cases errL with
      | some e => rfl
      | none =>
        dsimp only
        by_cases hmf : mf = []
        · simp [hmf]; rfl
        · rw [if_neg hmf]
          cases hbc : (buildCandidateMatches D a mf).2 with
          | error e => rfl
          | ok candidates =>
            dsimp only
            by_cases hcd : candidates = []
            · simp [hcd]; rfl
            · rw [if_neg hcd]
              cases hw : firstConsecutiveWindow candidates
                  (max 1 D.minConsecutiveHours) with
              | none => rfl
              | some w => rfl

theorem phase1_sendFree (r : AlertRule) (D : CheckRunnerDeps) (a : AlertRule)
    (c : ForecastCache) : countSend r (phase1 D a c).events = 0 := by
  unfold phase1
  by_cases hen : a.enabled = some false
  · rw [if_pos hen]
    rfl
  · rw [if_neg hen]
    cases hcg : cacheGet c a.spotId with
    | some fs =>
      rw [(phase1Core_spec D a c [] (Except.ok fs)).2.2.1, List.nil_append]
      exact phase1Core_sendFree r D a _
    | none =>
      cases hfr : D.fetchForecasts a.spotId with
      | error e =>
        rw [(phase1Core_spec D a c [RunEvent.fetch a.spotId]
          (Except.error e)).2.2.1, countSend_append, phase1Core_sendFree]
        rfl
      | ok fs =>
        rw [(phase1Core_spec D a (cacheSet c a.spotId fs)
          [RunEvent.fetch a.spotId] (Except.ok fs)).2.2.1, countSend_append,
          phase1Core_sendFree]
        rfl

/-- The conditions under which the dedupe/send phase performs no send and
leaves the store untouched: the window is covered by the stored one, or
the tide fetch for the message throws. -/
def noSendCond (D : CheckRunnerDeps) (a : AlertRule) (ctx : SendCtx)
    (prev : Option AlertWindow) : Prop :=
  shouldSendWindow prev ctx.newWindow = false ∨
    ∃ e, D.getTideEventsForDate (tidePortOf a)
      (D.apiDateFromForecastDate ctx.window.start.forecast.date) =
        Except.error e

theorem phase2_noSend (D : CheckRunnerDeps) (a : AlertRule) (ctx : SendCtx)
    (st : WindowStore)
    (hc : noSendCond D a ctx (storeGet st (dedupeKey a))) :
    (phase2 D a ctx st).events = [] ∧ (phase2 D a ctx st).store = st := by
  unfold phase2
  dsimp only
  by_cases hs : shouldSendWindow (storeGet st (dedupeKey a)) ctx.newWindow = false
  · rw [if_pos hs]
    exact ⟨rfl, rfl⟩
  · rw [if_neg hs]
    rcases hc with hc | ⟨e, hc⟩
    · exact absurd hc hs
    · rw [hc]
      exact ⟨rfl, rfl⟩

theorem phase2_spec (D : CheckRunnerDeps) (a : AlertRule) (ctx : SendCtx)
    (st : WindowStore)
    (hsend : ∀ c p, exceptOk (D.sendMessage c p) = true) :
    (countSend a (phase2 D a ctx st).events = 1 ∧
      (phase2 D a ctx st).store = storeSet st (dedupeKey a) ctx.newWindow)
    ∨ ((phase2 D a ctx st).events = [] ∧ (phase2 D a ctx st).store = st ∧
      noSendCond D a ctx (storeGet st (dedupeKey a))) := by
  unfold phase2
  dsimp only
  by_cases hs : shouldSendWindow (storeGet st (dedupeKey a)) ctx.newWindow = false
  · rw [if_pos hs]
    exact Or.inr ⟨rfl, rfl, Or.inl hs⟩
  · rw [if_neg hs]
    cases hg : D.getTideEventsForDate (tidePortOf a)
        (D.apiDateFromForecastDate ctx.window.start.forecast.date) with
    | error e => exact Or.inr ⟨rfl, rfl, Or.inr ⟨e, hg⟩⟩
    | ok te =>
      dsimp only
      split
      · next u hsm =>
        have h2 := hsend a.chatId
          ⟨a, ctx.window.start.forecast, ctx.startMs, ctx.endMs,
            findNearestTides ctx.startMs te,
            if ctx.tableForecasts = []
              then ctx.window.items.map CandidateMatch.forecast
              else ctx.tableForecasts⟩
        rw [hsm] at h2
        simp [exceptOk] at h2
      · next u hsm =>
        refine Or.inl ⟨?_, rfl⟩
        simp [countSend, List.countP_cons]

theorem phase2_countSend_ne (D : CheckRunnerDeps) (a : AlertRule)
    (ctx : SendCtx) (st : WindowStore) (r : AlertRule) (h : a ≠ r) :
    countSend r (phase2 D a ctx st).events = 0 := by
  unfold phase2
  dsimp only
  by_cases hs : shouldSendWindow (storeGet st (dedupeKey a)) ctx.newWindow = false
  · rw [if_pos hs]
    rfl
  · rw [if_neg hs]
    cases hg : D.getTideEventsForDate (tidePortOf a)
        (D.apiDateFromForecastDate ctx.window.start.forecast.date) with
    | error e => rfl
    | ok te =>
      dsimp only
      split
      · simp [countSend, List.countP_cons, h]
      · simp [countSend, List.countP_cons, h]

theorem phase2_store_cases (D : CheckRunnerDeps) (a : AlertRule)
    (ctx : SendCtx) (st : WindowStore) :
    (phase2 D a ctx st).store = st ∨
      (phase2 D a ctx st).store = storeSet st (dedupeKey a) ctx.newWindow := by
  unfold phase2
  dsimp only
  by_cases hs : shouldSendWindow (storeGet st (dedupeKey a)) ctx.newWindow = false
  · rw [if_pos hs]
    exact Or.inl rfl
  · rw [if_neg hs]
    cases hg : D.getTideEventsForDate (tidePortOf a)
        (D.apiDateFromForecastDate ctx.window.start.forecast.date) with
    | error e => exact Or.inl rfl
    | ok te =>
      dsimp only
      split
      · exact Or.inl rfl
      · exact Or.inr rfl

theorem processAlert_events (D : CheckRunnerDeps) (s : RunSt) (a : AlertRule) :
    (processAlert D s a).core.events =
      s.core.events ++ (phase1 D a s.core.cache).events ++
        (match (phase1 D a s.core.cache).outcome with
          | Except.ok (some ctx) => (phase2 D a ctx s.store).events
          | _ => []) := by
  unfold processAlert processAlertWith
  dsimp only
  cases hout : (phase1 D a s.core.cache).outcome with
  | error e =>
    dsimp only
    rw [List.append_nil]
  | ok o =>
    cases o with
    | none =>
      dsimp only
      rw [List.append_nil]
    | some ctx =>
      dsimp only
      cases herr : (phase2 D a ctx s.store).err with
      | some e => rfl
      | none => rfl

theorem processAlert_store (D : CheckRunnerDeps) (s : RunSt) (a : AlertRule) :
    (processAlert D s a).store =
      match (phase1 D a s.core.cache).outcome with
      | Except.ok (some ctx) => (phase2 D a ctx s.store).store
      | _ => s.store := by
  unfold processAlert processAlertWith
  dsimp only
  cases hout : (phase1 D a s.core.cache).outcome with
  | error e => rfl
  | ok o =>
    cases o with
    | none => rfl
    | some ctx =>
      dsimp only
      cases herr : (phase2 D a ctx s.store).err with
      | some e => rfl
      | none => rfl

theorem processAlert_cache (D : CheckRunnerDeps) (s : RunSt) (a : AlertRule) :
    (processAlert D s a).core.cache = (phase1 D a s.core.cache).cache := by
  unfold processAlert processAlertWith
  dsimp only
  cases hout : (phase1 D a s.core.cache).outcome with
  | error e => rfl
  | ok o =>
    cases o with
    | none => rfl
    | some ctx =>
      dsimp only
      cases herr : (phase2 D a ctx s.store).err with
      | some e => rfl
      | none => rfl

theorem processAlert_countSend_ne (D : CheckRunnerDeps) (s : RunSt)
    (a r : AlertRule) (h : a ≠ r) :
    countSend r (processAlert D s a).core.events =
      countSend r s.core.events := by
  rw [processAlert_events, countSend_append, countSend_append, phase1_sendFree]
  have h0 : countSend r ([] : List RunEvent) = 0 := rfl
  cases hout : (phase1 D a s.core.cache).outcome with
  | error e => simp [h0]
  | ok o =>
    cases o with
    | none => simp [h0]
    | some ctx =>
      dsimp only
      rw [phase2_countSend_ne D a ctx s.store r h]
      simp

theorem processAlert_mem (D : CheckRunnerDeps) (s : RunSt) (a : AlertRule)
    (e : RunEvent) (h : e ∈ s.core.events) :
    e ∈ (processAlert D s a).core.events := by
  rw [processAlert_events]
  exact List.mem_append_left _ (List.mem_append_left _ h)

theorem processAlert_storeGet_ne (D : CheckRunnerDeps) (s : RunSt)
    (a : AlertRule) (k : DedupKey) (h : k ≠ dedupeKey a) :
    storeGet (processAlert D s a).store k = storeGet s.store k := by
  rw [processAlert_store]
  cases hout : (phase1 D a s.core.cache).outcome with
  | error e => rfl
  | ok o =>
    cases o with
    | none => rfl
    | some ctx =>
      dsimp only
      rcases phase2_store_cases D a ctx s.store with h2 | h2
      · rw [h2]
      · rw [h2, storeGet_set, if_neg h]

theorem processAlert_self (D : CheckRunnerDeps) (s : RunSt) (r : AlertRule)
    (ctx : SendCtx)
    (hout : (phase1 D r s.core.cache).outcome = Except.ok (some ctx))
    (hsend : ∀ c p, exceptOk (D.sendMessage c p) = true) :
    (countSend r (processAlert D s r).core.events =
        countSend r s.core.events + 1 ∧
      storeGet (processAlert D s r).store (dedupeKey r) =
        some ctx.newWindow)
    ∨ (countSend r (processAlert D s r).core.events =
        countSend r s.core.events ∧
      storeGet (processAlert D s r).store (dedupeKey r) =
        storeGet s.store (dedupeKey r) ∧
      noSendCond D r ctx (storeGet s.store (dedupeKey r))) := by
  rw [processAlert_events, processAlert_store, hout]
  dsimp only
  rw [countSend_append, countSend_append, phase1_sendFree]
  rcases phase2_spec D r ctx s.store hsend with ⟨h1, h2⟩ | ⟨h1, h2, h3⟩
  · left
    rw [h1, h2, storeGet_set, if_pos rfl]
    exact ⟨rfl, rfl⟩
  · right
    rw [h1, h2]
    have h0 : countSend r ([] : List RunEvent) = 0 := rfl
    exact ⟨by simp [h0], rfl, h3⟩

theorem processAlert_self_noSend (D : CheckRunnerDeps) (s : RunSt)
    (r : AlertRule) (ctx : SendCtx)
    (hout : (phase1 D r s.core.cache).outcome = Except.ok (some ctx))
    (hc : noSendCond D r ctx (storeGet s.store (dedupeKey r))) :
    countSend r (processAlert D s r).core.events =
      countSend r s.core.events := by
  rw [processAlert_events, hout]
  dsimp only
  rw [countSend_append, countSend_append, phase1_sendFree,
    (phase2_noSend D r ctx s.store hc).1]
  have h0 : countSend r ([] : List RunEvent) = 0 := rfl
  simp [h0]

theorem shouldSendWindow_self (w : AlertWindow) :
    shouldSendWindow (some w) w = false := by
  simp [shouldSendWindow]

/-- The forecast-memo trajectory of the rule loop; the store never feeds
back into it, so the cache a rule sees is the same in every run with the
same configuration. -/
def cacheAfter (D : CheckRunnerDeps) (l : List AlertRule)
    (c : ForecastCache) : ForecastCache :=
  l.foldl (fun c a => (phase1 D a c).cache) c

theorem foldl_cache (D : CheckRunnerDeps) :
    ∀ (l : List AlertRule) (s : RunSt),
      (l.foldl (processAlert D) s).core.cache =
        cacheAfter D l s.core.cache := by
  intro l
  induction l with
  | nil => intro s; rfl
  | cons a rest ih =>
    intro s
    rw [List.foldl_cons, ih, processAlert_cache]
    rfl

theorem foldl_countSend_ne (D : CheckRunnerDeps) (r : AlertRule) :
    ∀ (l : List AlertRule) (s : RunSt), (∀ a ∈ l, a ≠ r) →
      countSend r (l.foldl (processAlert D) s).core.events =
        countSend r s.core.events := by
  intro l
  induction l with
  | nil => intro s _; rfl
  | cons a rest ih =>
    intro s h
    rw [List.foldl_cons, ih _ (fun b hb => h b (List.mem_cons_of_mem a hb)),
      processAlert_countSend_ne D s a r (h a (List.mem_cons_self a rest))]

theorem foldl_storeGet_ne (D : CheckRunnerDeps) (k : DedupKey) :
    ∀ (l : List AlertRule) (s : RunSt), (∀ a ∈ l, k ≠ dedupeKey a) →
      storeGet (l.foldl (processAlert D) s).store k =
        storeGet s.store k := by
  intro l
  induction l with
  | nil => intro s _; rfl
  | cons a rest ih =>
    intro s h
    rw [List.foldl_cons, ih _ (fun b hb => h b (List.mem_cons_of_mem a hb)),
      processAlert_storeGet_ne D s a k (h a (List.mem_cons_self a rest))]

theorem foldl_mem (D : CheckRunnerDeps) (e : RunEvent) :
    ∀ (l : List AlertRule) (s : RunSt), e ∈ s.core.events →
      e ∈ (l.foldl (processAlert D) s).core.events := by
  intro l
  induction l with
  | nil => intro s h; exact h
  | cons a rest ih =>
    intro s h
    rw [List.foldl_cons]
    exact ih _ (processAlert_mem D s a e h)

theorem phase1Core_matchRec (D : CheckRunnerDeps) (a : AlertRule)
    (c : ForecastCache) (fe : List RunEvent)
    (fE : Except String (List SurfForecast)) (ctx : SendCtx)
    (h : (phase1Core D a c fe fE).outcome = Except.ok (some ctx)) :
    RunEvent.matchRec a ctx.newWindow ∈ (phase1Core D a c fe fE).events := by
  unfold phase1Core at h ⊢
  cases fE with
  | error e => simp at h
  | ok forecasts =>
    dsimp only at h ⊢
    by_cases hemp : forecasts = []
    · rw [if_pos hemp] at h
      simp at h
    · rw [if_neg hemp] at h ⊢
      rcases hlm : lightAndMatch D a forecasts with ⟨mf, pd, dr, errL⟩
      rw [hlm] at h
      dsimp only at h ⊢
      cases errL with
      | some e => simp at h
      | none =>
        dsimp only at h ⊢
        by_cases hmf : mf = []
        · rw [if_pos hmf] at h
          simp at h
        · rw [if_neg hmf] at h ⊢
          cases hbc : (buildCandidateMatches D a mf).2 with
          | error e =>
            rw [hbc] at h
            simp at h
          | ok candidates =>
            rw [hbc] at h
            dsimp only at h ⊢
            by_cases hcd : candidates = []
            · rw [if_pos hcd] at h
              simp at h
            · rw [if_neg hcd] at h ⊢
              cases hw : firstConsecutiveWindow candidates
                  (max 1 D.minConsecutiveHours) with
              | none =>
                rw [hw] at h
                simp at h
              | some w =>
                rw [hw] at h
                dsimp only at h ⊢
                have h2 := Option.some.inj (Except.ok.inj h)
                rw [← h2]
                simp

theorem phase1_matchRec (D : CheckRunnerDeps) (a : AlertRule)
    (c : ForecastCache) (ctx : SendCtx)
    (h : (phase1 D a c).outcome = Except.ok (some ctx)) :
    RunEvent.matchRec a ctx.newWindow ∈ (phase1 D a c).events := by
  unfold phase1 at h ⊢
  by_cases hen : a.enabled = some false
  · rw [if_pos hen] at h
    simp at h
  · rw [if_neg hen] at h ⊢
    cases hcg : cacheGet c a.spotId with
    | some fs =>
      rw [hcg] at h
      dsimp only at h ⊢
      exact phase1Core_matchRec D a c [] (Except.ok fs) ctx h
    | none =>
      rw [hcg] at h
      dsimp only at h ⊢
      cases hfr : D.fetchForecasts a.spotId with
      | error e =>
        rw [hfr] at h
        dsimp only at h ⊢
        exact phase1Core_matchRec D a c [RunEvent.fetch a.spotId]
          (Except.error e) ctx h
      | ok fs =>
        rw [hfr] at h
        dsimp only at h ⊢
        exact phase1Core_matchRec D a (cacheSet c a.spotId fs)
          [RunEvent.fetch a.spotId] (Except.ok fs) ctx h

theorem processAlert_matchRec (D : CheckRunnerDeps) (s : RunSt)
    (a : AlertRule) (ctx : SendCtx)
    (h : (phase1 D a s.core.cache).outcome = Except.ok (some ctx)) :
    RunEvent.matchRec a ctx.newWindow ∈ (processAlert D s a).core.events := by
  rw [processAlert_events]
  exact List.mem_append_left _
    (List.mem_append_right _ (phase1_matchRec D a s.core.cache ctx h))

/-- C5 (amended): running the check twice in succession with identical
rules and collaborator results, the last-sent-window store threaded from
the first run into the second and no send failing, PROVIDED no other rule
in the list shares the rule's dedupe key: for a rule whose qualifying
window is detected (it is then detected in both runs, as the detection
phase never reads the store), the match-record hook fires in each run, the
first run sends at most once for the rule and the second run performs no
send for it.  The key-uniqueness proviso is necessary: as the
counterexample shows, a colliding rule may overwrite the stored window
between the runs and the second run then resends. -/
theorem C5_dedupe_idempotence (D : CheckRunnerDeps) (store0 : WindowStore)
    (pre post : List AlertRule) (r : AlertRule) (ctx : SendCtx)
    (halerts : D.alerts = pre ++ r :: post)
    (hkey : ∀ a, a ∈ pre ++ post → dedupeKey a ≠ dedupeKey r)
    (hsend : ∀ c p, exceptOk (D.sendMessage c p) = true)
    (hdet : (phase1 D r (cacheAfter D pre [])).outcome = Except.ok (some ctx)) :
    RunEvent.matchRec r ctx.newWindow ∈
      (runChecksWithDeps D store0).core.events ∧
    RunEvent.matchRec r ctx.newWindow ∈
      (runChecksWithDeps D (runChecksWithDeps D store0).store).core.events ∧
    countSend r (runChecksWithDeps D store0).core.events ≤ 1 ∧
    countSend r
      (runChecksWithDeps D
        (runChecksWithDeps D store0).store).core.events = 0 := by
  have hpre_ne : ∀ a ∈ pre, a ≠ r := fun a ha he =>
    hkey a (List.mem_append_left _ ha) (by rw [he])
  have hpost_ne : ∀ a ∈ post, a ≠ r := fun a ha he =>
    hkey a (List.mem_append_right _ ha) (by rw [he])
  have hpre_k : ∀ a ∈ pre, dedupeKey r ≠ dedupeKey a := fun a ha =>
    (hkey a (List.mem_append_left _ ha)).symm
  have hpost_k : ∀ a ∈ post, dedupeKey r ≠ dedupeKey a := fun a ha =>
    (hkey a (List.mem_append_right _ ha)).symm
  have hrun : ∀ st : WindowStore, runChecksWithDeps D st =
      post.foldl (processAlert D)
        (processAlert D (pre.foldl (processAlert D) (initState D st)) r) := by
    intro st
    unfold runChecksWithDeps runChecksFrom
    rw [halerts, List.foldl_append, List.foldl_cons]
  have hout : ∀ st : WindowStore,
      (phase1 D r
        (pre.foldl (processAlert D) (initState D st)).core.cache).outcome =
        Except.ok (some ctx) := by
    intro st
    rw [foldl_cache]
    exact hdet
  have hczero : ∀ st : WindowStore,
      countSend r
        (pre.foldl (processAlert D) (initState D st)).core.events = 0 := by
    intro st
    rw [foldl_countSend_ne D r pre _ hpre_ne]
    rfl
  have hmem : ∀ st : WindowStore,
      RunEvent.matchRec r ctx.newWindow ∈
        (runChecksWithDeps D st).core.events := by
    intro st
    rw [hrun st]
    exact foldl_mem D _ post _ (processAlert_matchRec D _ r ctx (hout st))
  have hstore1 : ∀ st : WindowStore,
      storeGet (runChecksWithDeps D st).store (dedupeKey r) =
        storeGet
          (processAlert D (pre.foldl (processAlert D) (initState D st))
            r).store (dedupeKey r) := by
    intro st
    rw [hrun st]
    exact foldl_storeGet_ne D (dedupeKey r) post _ hpost_k
  have hstore2 : ∀ st : WindowStore,
      storeGet
        (pre.foldl (processAlert D) (initState D st)).store (dedupeKey r) =
        storeGet st (dedupeKey r) := by
    intro st
    exact foldl_storeGet_ne D (dedupeKey r) pre _ hpre_k
  refine ⟨hmem store0, hmem (runChecksWithDeps D store0).store, ?_, ?_⟩
  · rw [hrun store0, foldl_countSend_ne D r post _ hpost_ne]
    rcases processAlert_self D
        (pre.foldl (processAlert D) (initState D store0)) r ctx
        (hout store0) hsend with ⟨hc1, _⟩ | ⟨hc1, _, _⟩
    · rw [hc1, hczero store0]
    · rw [hc1, hczero store0]
      exact Nat.zero_le 1
  · have hprev2 :
        storeGet
          (pre.foldl (processAlert D)
            (initState D (runChecksWithDeps D store0).store)).store
          (dedupeKey r) =
        storeGet
          (processAlert D (pre.foldl (processAlert D) (initState D store0))
            r).store (dedupeKey r) := by
      rw [hstore2 _, hstore1 store0]
    have hcond2 : noSendCond D r ctx
        (storeGet
          (pre.foldl (processAlert D)
            (initState D (runChecksWithDeps D store0).store)).store
          (dedupeKey r)) := by
      rcases processAlert_self D
          (pre.foldl (processAlert D) (initState D store0)) r ctx
          (hout store0) hsend with ⟨_, hs1⟩ | ⟨_, hs1, hcond⟩
      · rw [hprev2, hs1]
        exact Or.inl (shouldSendWindow_self _)
      · rw [hprev2, hs1]
        exact hcond
    rw [hrun _, foldl_countSend_ne D r post _ hpost_ne,
      processAlert_self_noSend D _ r ctx (hout _) hcond2, hczero _]

/-- Collaborators with the single rule `c5RuleA` for the amended-claim
witness: one matching sample, all collaborators succeed. -/
def c5wDeps : CheckRunnerDeps where
  alerts := [c5RuleA]
  minConsecutiveHours := 1
  fetchForecasts := fun _ => Except.ok [c5F0]
  isWithinAlertWindow := fun _ _ => Except.ok true
  getTideEventsForDate := fun _ _ => Except.ok []
  apiDateFromForecastDate := fun _ => defaultTidePort
  sendMessage := fun _ _ => Except.ok ()
  nowMs := 0

/-- The candidate the witness rule keeps (no tide classification, the day
has no tide events). -/
def c5wCand : CandidateMatch := ⟨c5F0, none, none⟩

/-- The send context the witness rule detects: the one-sample window at
the epoch hour. -/
def c5wCtx : SendCtx :=
  ⟨⟨c5wCand, c5wCand, 1, [c5wCand]⟩, 0, 0, ⟨0, 3600000⟩, [c5F0]⟩

theorem C5_witness :
    (∀ c p, exceptOk (c5wDeps.sendMessage c p) = true) ∧
    (phase1 c5wDeps c5RuleA (cacheAfter c5wDeps [] [])).outcome =
      Except.ok (some c5wCtx) ∧
    (RunEvent.matchRec c5RuleA c5wCtx.newWindow ∈
        (runChecksWithDeps c5wDeps []).core.events ∧
      RunEvent.matchRec c5RuleA c5wCtx.newWindow ∈
        (runChecksWithDeps c5wDeps
          (runChecksWithDeps c5wDeps []).store).core.events ∧
      countSend c5RuleA (runChecksWithDeps c5wDeps []).core.events ≤ 1 ∧
      countSend c5RuleA
        (runChecksWithDeps c5wDeps
          (runChecksWithDeps c5wDeps []).store).core.events = 0) :=
  ⟨fun _ _ => rfl, by with_unfolding_all rfl,
    C5_dedupe_idempotence c5wDeps [] [] [] c5RuleA c5wCtx rfl
      (by simp) (fun _ _ => rfl) (by with_unfolding_all rfl)⟩

end WavesBot
